import Mathlib

/-!
Verification of the Stigmergic Blackboard Protocol (SBP) server core.

This file gives a shallow embedding of the SBP server sources
(`conditions.ts` together with the decay utilities, `blackboard.ts`,
`validation.ts`, `server.ts`) and proves or refutes the specified
properties of the pheromone decay function, the merge rules of `emit`,
`sniff`, the scent table, the evaluation loop and the JSON-RPC surface.

Modelling conventions:
- JavaScript numbers are modelled as real numbers; times are reals.
- The pheromone store is a JavaScript `Map` keyed by the pheromone id;
  it is modelled as a list in insertion order whose ids are unique.
- Payloads are abstract values (naturals); `hashPayload` models the
  SHA-256 digest of the sorted-key JSON serialisation, which the code
  uses as a collision-free identity for merge matching.
- UUID generation is modelled by passing the fresh id as an argument.
-/

namespace SBP

/-- One step of a step decay model: `{at_ms, intensity}`. -/
structure DecayStep where
  at_ms : ℝ
  intensity : ℝ


/-- Decay model variants, from `types/index.ts`. -/
inductive DecayModel where
  | exponential (half_life_ms : ℝ)
  | linear (rate_per_ms : ℝ)
  | step (steps : List DecayStep)
  | immortal


/-- A pheromone record, from `types/index.ts`. -/
structure Pheromone where
  id : ℕ
  trail : String
  type : String
  emitted_at : ℝ
  last_reinforced_at : ℝ
  initial_intensity : ℝ
  decay_model : DecayModel
  payload : ℕ
  source_agent : Option String
  tags : List String
  ttl_floor : ℝ


/-- Backward scan of the step list: the code iterates `i` from the end of
`steps` down to `0` and returns the intensity of the first step (from the
back) with `elapsed >= steps[i].at_ms`; this helper receives the reversed
list so that the scan is structural. -/
noncomputable def stepScanBack (rsteps : List DecayStep) (elapsed initial : ℝ) : ℝ :=
  match rsteps with
  | [] => initial
  | s :: rest => if s.at_ms ≤ elapsed then s.intensity else stepScanBack rest elapsed initial

/-- Embedding of `computeIntensity` from the decay utilities: the elapsed
time is `now - last_reinforced_at`; when it is not positive the initial
intensity is returned unchanged, otherwise the decay model is applied. -/
noncomputable def computeIntensity (p : Pheromone) (now : ℝ) : ℝ :=
  if now - p.last_reinforced_at ≤ 0 then p.initial_intensity
  else
    match p.decay_model with
    | DecayModel.exponential halfLife =>
        p.initial_intensity * (1 / 2 : ℝ) ^ ((now - p.last_reinforced_at) / halfLife)
    | DecayModel.linear rate =>
        max 0 (p.initial_intensity - rate * (now - p.last_reinforced_at))
    | DecayModel.step steps =>
        stepScanBack steps.reverse (now - p.last_reinforced_at) p.initial_intensity
    | DecayModel.immortal => p.initial_intensity

/-- Embedding of `isEvaporated`: current intensity strictly below the floor. -/
noncomputable def isEvaporated (p : Pheromone) (now : ℝ) : Prop :=
  computeIntensity p now < p.ttl_floor

noncomputable instance (p : Pheromone) (now : ℝ) : Decidable (isEvaporated p now) := by
  unfold isEvaporated; infer_instance

/-- Embedding of `defaultDecay`: exponential with a five minute half life. -/
def defaultDecay : DecayModel := DecayModel.exponential 300000

/-- Lookup written from the words of the specification of step decay: the
intensity of the last step whose `at_ms ≤ elapsed` (with steps sorted
ascending by `at_ms` this is the greatest such step), or `initial` if no
step applies. -/
noncomputable def specStepLookup (steps : List DecayStep) (elapsed initial : ℝ) : ℝ :=
  match (steps.filter fun s => decide (s.at_ms ≤ elapsed)).getLast? with
  | some s => s.intensity
  | none => initial

/-- Decay function written from the words of claim C1: elapsed is clamped
with `max 0` and each decay model formula is applied to that elapsed time,
with no separate early return. -/
noncomputable def specComputeIntensityC1 (p : Pheromone) (now : ℝ) : ℝ :=
  let elapsed := max 0 (now - p.last_reinforced_at)
  match p.decay_model with
  | DecayModel.exponential halfLife =>
      p.initial_intensity * (1 / 2 : ℝ) ^ (elapsed / halfLife)
  | DecayModel.linear rate => max 0 (p.initial_intensity - rate * elapsed)
  | DecayModel.step steps => specStepLookup steps elapsed p.initial_intensity
  | DecayModel.immortal => p.initial_intensity

/-- Amended decay function for claim C1: identical to the claim except
that, as in the code, an elapsed time that is not positive always returns
the initial intensity, so a step with `at_ms = 0` does not apply at
`elapsed = 0`. -/
noncomputable def specComputeIntensityAmended (p : Pheromone) (now : ℝ) : ℝ :=
  if now - p.last_reinforced_at ≤ 0 then p.initial_intensity
  else
    let elapsed := now - p.last_reinforced_at
    match p.decay_model with
    | DecayModel.exponential halfLife =>
        p.initial_intensity * (1 / 2 : ℝ) ^ (elapsed / halfLife)
    | DecayModel.linear rate => max 0 (p.initial_intensity - rate * elapsed)
    | DecayModel.step steps => specStepLookup steps elapsed p.initial_intensity
    | DecayModel.immortal => p.initial_intensity

/-- The backward scan over the reversed step list returns the intensity of
the last step of the original list whose threshold has been reached. -/
theorem stepScanBack_eq_head_filter (rsteps : List DecayStep) (e init : ℝ) :
    stepScanBack rsteps e init =
      match (rsteps.filter fun s => decide (s.at_ms ≤ e)).head? with
      | some s => s.intensity
      | none => init := by
  induction rsteps with
  | nil => simp [stepScanBack]
  | cons s rest ih =>
    by_cases h : s.at_ms ≤ e
    · simp [stepScanBack, h, List.filter_cons]
    · simp [stepScanBack, h, List.filter_cons, ih]

theorem stepScanBack_reverse_eq_specStepLookup (steps : List DecayStep) (e init : ℝ) :
    stepScanBack steps.reverse e init = specStepLookup steps e init := by
  rw [stepScanBack_eq_head_filter, specStepLookup, List.filter_reverse,
    List.head?_reverse]

/-- Concrete pheromone refuting claim C1: a step decay whose first step is
at `at_ms = 0`, read at the very instant of reinforcement. -/
noncomputable def pheromoneC1 : Pheromone :=
  { id := 0
    trail := "a"
    type := "b"
    emitted_at := 0
    last_reinforced_at := 0
    initial_intensity := 1 / 2
    decay_model := DecayModel.step [⟨0, 9 / 10⟩]
    payload := 0
    source_agent := none
    tags := []
    ttl_floor := 1 / 100 }

/-- C1 counterexample: at `now = last_reinforced_at` the code returns the
initial intensity `1/2`, while the claimed formula applies the step at
`at_ms = 0` and returns `9/10`. -/
theorem computeIntensity_ne_specC1 :
    computeIntensity pheromoneC1 0 = 1 / 2 ∧
      specComputeIntensityC1 pheromoneC1 0 = 9 / 10 ∧
      computeIntensity pheromoneC1 0 ≠ specComputeIntensityC1 pheromoneC1 0 := by
  have h1 : computeIntensity pheromoneC1 0 = 1 / 2 := by
    unfold computeIntensity pheromoneC1
    norm_num
  have h2 : specComputeIntensityC1 pheromoneC1 0 = 9 / 10 := by
    unfold specComputeIntensityC1 pheromoneC1 specStepLookup
    norm_num
  refine ⟨h1, h2, ?_⟩
  rw [h1, h2]; norm_num

/-- C1 amended: `computeIntensity` returns the initial intensity whenever
`now ≤ last_reinforced_at`; for a positive elapsed time it returns the
exponential, linear, step (last step whose `at_ms ≤ elapsed`, the greatest
one when steps are sorted ascending) or immortal formula of the claim. -/
theorem computeIntensity_eq_amended (p : Pheromone) (now : ℝ) :
    computeIntensity p now = specComputeIntensityAmended p now := by
  unfold computeIntensity specComputeIntensityAmended
  by_cases h : now - p.last_reinforced_at ≤ 0
  · simp [h]
  · simp only [h, if_false]
    cases p.decay_model with
    | exponential halfLife => rfl
    | linear rate => rfl
    | step steps => exact stepScanBack_reverse_eq_specStepLookup steps _ _
    | immortal => rfl

/-- Tag filter record from `types/index.ts`; a missing clause is `none`. -/
structure TagFilter where
  any : Option (List String) := Option.none
  all : Option (List String) := Option.none
  none : Option (List String) := Option.none

/-- Embedding of `matchTags`: each present non-empty clause must be
satisfied (`any`: some tag shared, `all`: every tag present, `none`: no
tag shared); the early returns of the code form a conjunction. -/
def matchTags (tags : List String) (filter : TagFilter) : Bool :=
  (match filter.any with
   | some l => if 0 < l.length then l.any (fun t => tags.contains t) else true
   | Option.none => true) &&
  (match filter.all with
   | some l => if 0 < l.length then l.all (fun t => tags.contains t) else true
   | Option.none => true) &&
  (match filter.none with
   | some l => if 0 < l.length then !(l.any fun t => tags.contains t) else true
   | Option.none => true)

/-- Comparison operators of threshold and rate conditions. -/
inductive CmpOp where
  | ge | gt | le | lt | eq | ne

/-- Embedding of `compare`. -/
noncomputable def compare (a : ℝ) (op : CmpOp) (b : ℝ) : Bool :=
  match op with
  | CmpOp.ge => decide (a ≥ b)
  | CmpOp.gt => decide (a > b)
  | CmpOp.le => decide (a ≤ b)
  | CmpOp.lt => decide (a < b)
  | CmpOp.eq => decide (a = b)
  | CmpOp.ne => decide (a ≠ b)

inductive Aggregation where
  | sum | max | avg | count | any

structure ThresholdCondition where
  trail : String
  signal_type : String
  tags : Option TagFilter := Option.none
  aggregation : Aggregation
  operator : CmpOp
  value : ℝ

/-- An emission history record `(trail, type, timestamp)`. -/
structure Emission where
  trail : String
  type : String
  timestamp : ℝ

inductive RateMetric where
  | emissions_per_second | intensity_delta

structure RateCondition where
  trail : String
  signal_type : String
  metric : RateMetric
  window_ms : ℝ
  operator : CmpOp
  value : ℝ

structure PatternStep where
  trail : String
  signal_type : String
  min_intensity : Option ℝ := Option.none

structure PatternCondition where
  sequence : List PatternStep
  window_ms : ℝ
  ordered : Option Bool := Option.none

inductive CompositeOp where
  | and | or | not

/-- The scent condition tree from `types/index.ts`. -/
inductive ScentCondition where
  | threshold (c : ThresholdCondition)
  | composite (operator : CompositeOp) (conditions : List ScentCondition)
  | rate (c : RateCondition)
  | pattern (c : PatternCondition)

/-- Evaluation context: a pheromone snapshot, the instant, and the
emission history. -/
structure EvaluationContext where
  pheromones : List Pheromone
  now : ℝ
  emissionHistory : List Emission := []

structure EvaluationResult where
  met : Bool
  value : ℝ
  matchingPheromoneIds : List ℕ

/-- Spread of a JavaScript `Set` built by inserting the elements of a
list in order: duplicates after the first occurrence are dropped. -/
def uniqueInOrder {α : Type} [DecidableEq α] (l : List α) : List α :=
  l.foldl (fun acc x => if x ∈ acc then acc else acc ++ [x]) []

/-- The filter predicate of `evaluateThreshold`: trail equal, type equal
or wildcard, not evaporated, and the tag filter if present. -/
noncomputable def thresholdMatch (c : ThresholdCondition) (now : ℝ) (p : Pheromone) : Bool :=
  decide (p.trail = c.trail) &&
  (decide (c.signal_type = "*") || decide (p.type = c.signal_type)) &&
  !(decide (isEvaporated p now)) &&
  (match c.tags with
   | some tf => matchTags p.tags tf
   | Option.none => true)

/-- Embedding of `evaluateThreshold`. -/
noncomputable def evaluateThreshold (c : ThresholdCondition) (ctx : EvaluationContext) : EvaluationResult :=
  let matching := ctx.pheromones.filter (thresholdMatch c ctx.now)
  let intensities := matching.map (fun p => computeIntensity p ctx.now)
  let aggValue : ℝ :=
    match c.aggregation with
    | Aggregation.sum => intensities.foldl (· + ·) 0
    | Aggregation.max =>
        match intensities with
        | [] => 0
        | x :: xs => xs.foldl max x
    | Aggregation.avg =>
        if 0 < intensities.length then (intensities.foldl (· + ·) 0) / intensities.length else 0
    | Aggregation.count => matching.length
    | Aggregation.any => if 0 < matching.length then 1 else 0
  { met := compare aggValue c.operator c.value
    value := aggValue
    matchingPheromoneIds := matching.map Pheromone.id }

/-- Embedding of `evaluateRate`. -/
noncomputable def evaluateRate (c : RateCondition) (ctx : EvaluationContext) : EvaluationResult :=
  let windowStart := ctx.now - c.window_ms
  let relevantEmissions := ctx.emissionHistory.filter fun e =>
    decide (e.trail = c.trail) &&
    (decide (c.signal_type = "*") || decide (e.type = c.signal_type)) &&
    decide (e.timestamp ≥ windowStart)
  let value : ℝ :=
    match c.metric with
    | RateMetric.emissions_per_second => relevantEmissions.length / (c.window_ms / 1000)
    | RateMetric.intensity_delta => relevantEmissions.length
  { met := compare value c.operator c.value
    value := value
    matchingPheromoneIds := [] }

/-- Scan of the ordered pattern loop: find the first emission matching the
step and return the remaining suffix, or fail. -/
def dropAfterMatch (st : PatternStep) : List Emission → Option (List Emission)
  | [] => Option.none
  | e :: es =>
      if e.trail = st.trail ∧ e.type = st.signal_type then some es else dropAfterMatch st es

/-- Ordered pattern matching: greedy forward scan, stopping at the first
step that cannot be matched; returns the number of matched steps. -/
def patternOrderedCount (seq : List PatternStep) (rel : List Emission) : ℕ :=
  match seq with
  | [] => 0
  | st :: rest =>
      match dropAfterMatch st rel with
      | some rel2 => 1 + patternOrderedCount rest rel2
      | Option.none => 0

/-- Remove the first emission matching the step, keeping the rest. -/
def removeFirstMatch (st : PatternStep) : List Emission → Option (List Emission)
  | [] => Option.none
  | e :: es =>
      if e.trail = st.trail ∧ e.type = st.signal_type then some es
      else (removeFirstMatch st es).map (e :: ·)

/-- Unordered pattern matching: each step consumes any unused record; a
step that cannot be matched is skipped. -/
def patternUnorderedCount (seq : List PatternStep) (remaining : List Emission) : ℕ :=
  match seq with
  | [] => 0
  | st :: rest =>
      match removeFirstMatch st remaining with
      | some rem2 => 1 + patternUnorderedCount rest rem2
      | Option.none => patternUnorderedCount rest remaining

/-- Embedding of `evaluatePattern`. -/
noncomputable def evaluatePattern (c : PatternCondition) (ctx : EvaluationContext) : EvaluationResult :=
  let windowStart := ctx.now - c.window_ms
  let relevant := ctx.emissionHistory.filter fun e => decide (e.timestamp ≥ windowStart)
  if relevant.length = 0 ∨ c.sequence.length = 0 then
    { met := false, value := 0, matchingPheromoneIds := [] }
  else
    let matchCount :=
      if c.ordered.getD true then patternOrderedCount c.sequence relevant
      else patternUnorderedCount c.sequence relevant
    { met := decide (matchCount = c.sequence.length)
      value := (matchCount : ℝ) / (c.sequence.length : ℝ)
      matchingPheromoneIds := [] }

mutual

/-- Embedding of `evaluateCondition`: dispatch on the condition type. -/
noncomputable def evaluateCondition (c : ScentCondition) (ctx : EvaluationContext) : EvaluationResult :=
  match c with
  | ScentCondition.threshold t => evaluateThreshold t ctx
  | ScentCondition.composite op cs => evaluateComposite op cs ctx
  | ScentCondition.rate r => evaluateRate r ctx
  | ScentCondition.pattern pc => evaluatePattern pc ctx

/-- Embedding of `evaluateComposite`: an empty children list is not met,
otherwise all children are evaluated; `and` is the conjunction, `or` the
disjunction, `not` negates the first result only; the value counts the
met children and the id set is the deduplicated union. -/
noncomputable def evaluateComposite (op : CompositeOp) (cs : List ScentCondition) (ctx : EvaluationContext) : EvaluationResult :=
  match cs with
  | [] => { met := false, value := 0, matchingPheromoneIds := [] }
  | c0 :: rest =>
      let results := evalConditionList (c0 :: rest) ctx
      let met :=
        match op with
        | CompositeOp.and => results.all (fun r => r.met)
        | CompositeOp.or => results.any (fun r => r.met)
        | CompositeOp.not => !((results.head?.getD { met := false, value := 0, matchingPheromoneIds := [] }).met)
      { met := met
        value := ((results.filter (fun r => r.met)).length : ℝ)
        matchingPheromoneIds := uniqueInOrder (results.flatMap (fun r => r.matchingPheromoneIds)) }

/-- Pointwise evaluation of a list of child conditions. -/
noncomputable def evalConditionList (cs : List ScentCondition) (ctx : EvaluationContext) : List EvaluationResult :=
  match cs with
  | [] => []
  | c :: rest => evaluateCondition c ctx :: evalConditionList rest ctx

end

/-- Snapshot of a pheromone for sniff results and trigger payloads. -/
structure PheromoneSnapshot where
  id : ℕ
  trail : String
  type : String
  current_intensity : ℝ
  payload : ℕ
  age_ms : ℝ
  tags : List String

/-- Embedding of `createSnapshot`. -/
noncomputable def createSnapshot (p : Pheromone) (now : ℝ) : PheromoneSnapshot :=
  { id := p.id
    trail := p.trail
    type := p.type
    current_intensity := computeIntensity p now
    payload := p.payload
    age_ms := now - p.emitted_at
    tags := p.tags }

inductive MergeStrategy where
  | reinforce | replace | max | add | new
  deriving DecidableEq

inductive TriggerMode where
  | level | edge_rising | edge_falling
  deriving DecidableEq

inductive EmitAction where
  | created | reinforced | replaced | merged
  deriving DecidableEq

/-- Blackboard options with the defaults of the constructor. -/
structure BlackboardOptions where
  evaluationInterval : ℝ := 100
  defaultDecay : DecayModel := DecayModel.exponential 300000
  defaultTtlFloor : ℝ := 1 / 100
  maxPheromones : ℕ := 100000
  trackEmissionHistory : Bool := true
  emissionHistoryWindow : ℝ := 60000

/-- A registered scent with its runtime fields. -/
structure Scent where
  scent_id : String
  agent_endpoint : String
  condition : ScentCondition
  cooldown_ms : ℝ
  activation_payload : ℕ
  trigger_mode : TriggerMode
  hysteresis : ℝ
  max_execution_ms : ℝ
  last_triggered_at : Option ℝ
  last_condition_met : Bool
  context_trails : Option (List String)

/-- The mutable state of a `Blackboard`: the pheromone store (a `Map`
keyed by pheromone id, in insertion order), the scent table (a `Map`
keyed by scent id) and the emission history ring. -/
structure BlackboardState where
  pheromones : List Pheromone := []
  scents : List Scent := []
  emissionHistory : List Emission := []

structure EmitParams where
  trail : String
  type : String
  intensity : ℝ
  decay : Option DecayModel := Option.none
  payload : Option ℕ := Option.none
  tags : Option (List String) := Option.none
  merge_strategy : Option MergeStrategy := Option.none
  source_agent : Option String := Option.none

structure EmitResult where
  pheromone_id : ℕ
  action : EmitAction
  previous_intensity : Option ℝ
  new_intensity : ℝ

/-- Model of `hashPayload`: the code takes a SHA-256 digest of the
sorted-key JSON serialisation; payloads being abstract values here, the
digest is modelled as the identity, which is collision-free. -/
def hashPayload (payload : ℕ) : ℕ := payload

/-- Embedding of `pruneEmissionHistory`: keep records inside the window. -/
noncomputable def pruneEmissionHistory (window now : ℝ) (hist : List Emission) : List Emission :=
  hist.filter fun e => decide (e.timestamp ≥ now - window)

/-- The merge target search of `emit`: the first pheromone of the store
whose trail, type and payload hash match and that has not evaporated. -/
noncomputable def findMergeTarget (phs : List Pheromone) (trail ty : String) (payloadHash : ℕ) (now : ℝ) : Option Pheromone :=
  match phs with
  | [] => Option.none
  | p :: rest =>
      if p.trail = trail ∧ p.type = ty ∧ hashPayload p.payload = payloadHash ∧ ¬ isEvaporated p now
      then some p
      else findMergeTarget rest trail ty payloadHash now

/-- In-place mutation of the found pheromone by merge strategy. The
`replace` strategy only overwrites `source_agent` when the supplied value
is truthy, that is, present and non-empty. -/
noncomputable def mergePheromone (strategy : MergeStrategy) (existing : Pheromone)
    (clamped now : ℝ) (payload : ℕ) (tags : List String) (source_agent : Option String)
    (previousIntensity : ℝ) : Pheromone :=
  match strategy with
  | MergeStrategy.reinforce =>
      { existing with initial_intensity := clamped, last_reinforced_at := now }
  | MergeStrategy.replace =>
      { existing with
          initial_intensity := clamped
          last_reinforced_at := now
          payload := payload
          tags := tags
          source_agent :=
            match source_agent with
            | some sa => if sa = "" then existing.source_agent else some sa
            | Option.none => existing.source_agent }
  | MergeStrategy.max =>
      { existing with initial_intensity := max previousIntensity clamped, last_reinforced_at := now }
  | MergeStrategy.add =>
      { existing with initial_intensity := min 1 (previousIntensity + clamped), last_reinforced_at := now }
  | MergeStrategy.new => existing

/-- The `action` field of the merge switch; its initial value
`reinforced` survives the unreachable `new` case. -/
def mergeAction : MergeStrategy → EmitAction
  | MergeStrategy.reinforce => EmitAction.reinforced
  | MergeStrategy.replace => EmitAction.replaced
  | MergeStrategy.max => EmitAction.merged
  | MergeStrategy.add => EmitAction.merged
  | MergeStrategy.new => EmitAction.reinforced

/-- Embedding of `gc`: delete every evaporated pheromone. -/
noncomputable def gc (phs : List Pheromone) (now : ℝ) : List Pheromone :=
  phs.filter fun p => !(decide (isEvaporated p now))

/-- Embedding of `Blackboard.emit`. The fresh UUID for the created case is
passed as an argument. -/
noncomputable def emit (opts : BlackboardOptions) (s : BlackboardState) (params : EmitParams)
    (now : ℝ) (freshId : ℕ) : EmitResult × BlackboardState :=
  let decay := params.decay.getD opts.defaultDecay
  let payload := params.payload.getD 0
  let tags := params.tags.getD []
  let strategy := params.merge_strategy.getD MergeStrategy.reinforce
  let clampedIntensity := max 0 (min 1 params.intensity)
  let history :=
    if opts.trackEmissionHistory then
      pruneEmissionHistory opts.emissionHistoryWindow now
        (s.emissionHistory ++ [⟨params.trail, params.type, now⟩])
    else s.emissionHistory
  let existing :=
    if strategy = MergeStrategy.new then Option.none
    else findMergeTarget s.pheromones params.trail params.type (hashPayload payload) now
  match existing with
  | some ex =>
      let previousIntensity := computeIntensity ex now
      let updated := mergePheromone strategy ex clampedIntensity now payload tags params.source_agent previousIntensity
      ({ pheromone_id := ex.id
         action := mergeAction strategy
         previous_intensity := some previousIntensity
         new_intensity := computeIntensity updated now }
       , { s with
            pheromones := s.pheromones.map fun q => if q.id = ex.id then updated else q
            emissionHistory := history })
  | Option.none =>
      let pheromone : Pheromone :=
        { id := freshId
          trail := params.trail
          type := params.type
          emitted_at := now
          last_reinforced_at := now
          initial_intensity := clampedIntensity
          decay_model := decay
          payload := payload
          source_agent := params.source_agent
          tags := tags
          ttl_floor := opts.defaultTtlFloor }
      let phs := s.pheromones ++ [pheromone]
      ({ pheromone_id := freshId
         action := EmitAction.created
         previous_intensity := Option.none
         new_intensity := clampedIntensity }
       , { s with
            pheromones := if opts.maxPheromones < phs.length then gc phs now else phs
            emissionHistory := history })

structure SniffParams where
  trails : Option (List String) := Option.none
  types : Option (List String) := Option.none
  min_intensity : Option ℝ := Option.none
  max_age_ms : Option ℝ := Option.none
  tags : Option TagFilter := Option.none
  limit : Option ℕ := Option.none
  include_evaporated : Option Bool := Option.none

structure AggregateStats where
  count : ℕ
  sum_intensity : ℝ
  max_intensity : ℝ
  avg_intensity : ℝ

structure SniffResult where
  timestamp : ℝ
  pheromones : List PheromoneSnapshot
  aggregates : List (String × AggregateStats)

/-- The filter of the `sniff` loop; each `continue` of the code becomes a
conjunct. -/
noncomputable def sniffKeep (sp : SniffParams) (now : ℝ) (p : Pheromone) : Bool :=
  (match sp.trails with
   | some l => if 0 < l.length then l.contains p.trail else true
   | Option.none => true) &&
  (match sp.types with
   | some l => if 0 < l.length then l.contains p.type else true
   | Option.none => true) &&
  (sp.include_evaporated.getD false || !(decide (computeIntensity p now < p.ttl_floor))) &&
  decide (sp.min_intensity.getD 0 ≤ computeIntensity p now) &&
  (match sp.max_age_ms with
   | some m => decide (now - p.emitted_at ≤ m)
   | Option.none => true) &&
  (match sp.tags with
   | some tf => matchTags p.tags tf
   | Option.none => true)

/-- Per `trail/type` aggregate accumulator of `sniff`: count, sum, max. -/
noncomputable def upsertAgg : List (String × ℕ × ℝ × ℝ) → String → ℝ → List (String × ℕ × ℝ × ℝ)
  | [], key, i => [(key, 1, i, max 0 i)]
  | (k, c, sm, mx) :: rest, key, i =>
      if k = key then (k, c + 1, sm + i, max mx i) :: rest
      else (k, c, sm, mx) :: upsertAgg rest key i

/-- Embedding of `Blackboard.sniff`: filter, snapshot, sort by current
intensity descending, truncate to the limit; aggregates are computed on
the filtered, pre-truncation set. -/
noncomputable def sniff (s : BlackboardState) (sp : SniffParams) (now : ℝ) : SniffResult :=
  let matching := s.pheromones.filter (sniffKeep sp now)
  let results := matching.map fun p => createSnapshot p now
  let sorted := results.mergeSort fun a b => decide (b.current_intensity ≤ a.current_intensity)
  let aggPairs := matching.foldl
    (fun acc p => upsertAgg acc (p.trail ++ "/" ++ p.type) (computeIntensity p now)) []
  { timestamp := now
    pheromones := sorted.take (sp.limit.getD 100)
    aggregates := aggPairs.map fun x =>
      (x.1,
       { count := x.2.1
         sum_intensity := x.2.2.1
         max_intensity := x.2.2.2
         avg_intensity := if 0 < x.2.1 then x.2.2.1 / (x.2.1 : ℝ) else 0 }) }

structure RegisterScentParams where
  scent_id : String
  agent_endpoint : String := ""
  condition : ScentCondition
  cooldown_ms : Option ℝ := Option.none
  activation_payload : Option ℕ := Option.none
  trigger_mode : Option TriggerMode := Option.none
  hysteresis : Option ℝ := Option.none
  max_execution_ms : Option ℝ := Option.none
  context_trails : Option (List String) := Option.none

inductive RegStatus where
  | registered | updated
  deriving DecidableEq

structure RegisterScentResult where
  scent_id : String
  status : RegStatus
  current_condition_state_met : Bool

/-- The scent stored by `registerScent`: the defaults of the destructuring
and fresh runtime fields (`last_triggered_at = null`,
`last_condition_met = false`), a function of the params alone. -/
def scentOfParams (params : RegisterScentParams) : Scent :=
  { scent_id := params.scent_id
    agent_endpoint := params.agent_endpoint
    condition := params.condition
    cooldown_ms := params.cooldown_ms.getD 0
    activation_payload := params.activation_payload.getD 0
    trigger_mode := params.trigger_mode.getD TriggerMode.level
    hysteresis := params.hysteresis.getD 0
    max_execution_ms := params.max_execution_ms.getD 30000
    last_triggered_at := Option.none
    last_condition_met := false
    context_trails := params.context_trails }

/-- Map.set on the scent table keyed by `scent_id`: replace in place when
the key is present, append otherwise. -/
def setScent (scents : List Scent) (sc : Scent) : List Scent :=
  if scents.any (fun x => x.scent_id == sc.scent_id) then
    scents.map fun x => if x.scent_id = sc.scent_id then sc else x
  else scents ++ [sc]

/-- Embedding of `Blackboard.registerScent`. -/
noncomputable def registerScent (s : BlackboardState) (params : RegisterScentParams) (now : ℝ) :
    RegisterScentResult × BlackboardState :=
  let isUpdate := s.scents.any fun x => x.scent_id == params.scent_id
  let scent := scentOfParams params
  let evalResult := evaluateCondition params.condition
    { pheromones := s.pheromones, now := now, emissionHistory := s.emissionHistory }
  ({ scent_id := params.scent_id
     status := if isUpdate then RegStatus.updated else RegStatus.registered
     current_condition_state_met := evalResult.met }
   , { s with scents := setScent s.scents scent })

/-- Embedding of `Blackboard.deregisterScent` (state part). -/
def deregisterScent (s : BlackboardState) (scent_id : String) : BlackboardState × Bool :=
  if s.scents.any (fun x => x.scent_id == scent_id) then
    ({ s with scents := s.scents.filter fun x => !(x.scent_id == scent_id) }, true)
  else (s, false)

structure EvaporateParams where
  trail : Option String := Option.none
  types : Option (List String) := Option.none
  older_than_ms : Option ℝ := Option.none
  below_intensity : Option ℝ := Option.none
  tags : Option TagFilter := Option.none

structure EvaporateResult where
  evaporated_count : ℕ
  trails_affected : List String

/-- Removal predicate of `evaporate`: every supplied (truthy) filter must
hold; each `continue` of the loop becomes a conjunct. -/
noncomputable def evaporateMatches (params : EvaporateParams) (now : ℝ) (p : Pheromone) : Bool :=
  (match params.trail with
   | some t => if t = "" then true else decide (p.trail = t)
   | Option.none => true) &&
  (match params.types with
   | some l => if 0 < l.length then l.contains p.type else true
   | Option.none => true) &&
  (match params.older_than_ms with
   | some m => decide (m ≤ now - p.emitted_at)
   | Option.none => true) &&
  (match params.below_intensity with
   | some b => decide (computeIntensity p now < b)
   | Option.none => true) &&
  (match params.tags with
   | some tf => matchTags p.tags tf
   | Option.none => true)

/-- Embedding of `Blackboard.evaporate`. -/
noncomputable def evaporate (s : BlackboardState) (params : EvaporateParams) (now : ℝ) :
    EvaporateResult × BlackboardState :=
  let toRemove := s.pheromones.filter (evaporateMatches params now)
  ({ evaporated_count := toRemove.length
     trails_affected := uniqueInOrder (toRemove.map Pheromone.trail) }
   , { s with pheromones := s.pheromones.filter fun p => !(evaporateMatches params now p) })

/-- Embedding of `shouldTrigger`: the firing decision per trigger mode,
read against the previous `last_condition_met`. -/
def shouldTrigger (scent : Scent) (conditionMet : Bool) : Bool :=
  match scent.trigger_mode with
  | TriggerMode.level => conditionMet
  | TriggerMode.edge_rising => conditionMet && !scent.last_condition_met
  | TriggerMode.edge_falling => !conditionMet && scent.last_condition_met

/-- Evaluation of one scent when not skipped: the condition is evaluated,
`last_condition_met` is always updated, and firing sets
`last_triggered_at := now`. -/
noncomputable def tickScentEval (pheromones : List Pheromone) (hist : List Emission) (now : ℝ)
    (scent : Scent) : Scent × Bool :=
  let evalResult := evaluateCondition scent.condition
    { pheromones := pheromones, now := now, emissionHistory := hist }
  let fired := shouldTrigger scent evalResult.met
  ({ scent with
      last_condition_met := evalResult.met
      last_triggered_at := if fired then some now else scent.last_triggered_at }
   , fired)

/-- One scent of a tick of `evaluateScents`: the cooldown guard
`scent.last_triggered_at && now - scent.last_triggered_at < cooldown_ms`
skips the scent untouched (a truthy `last_triggered_at` is a non-null,
non-zero timestamp). -/
noncomputable def tickScent (pheromones : List Pheromone) (hist : List Emission) (now : ℝ)
    (scent : Scent) : Scent × Bool :=
  match scent.last_triggered_at with
  | some t =>
      if t ≠ 0 ∧ now - t < scent.cooldown_ms then (scent, false)
      else tickScentEval pheromones hist now scent
  | Option.none => tickScentEval pheromones hist now scent

/-- Embedding of `Blackboard.evaluateScents`: every scent is processed
against the same pheromone snapshot; the fired scent ids are collected in
order (their dispatch is network I/O, outside this model). -/
noncomputable def evaluateScents (s : BlackboardState) (now : ℝ) : BlackboardState × List String :=
  let result := s.scents.foldl
    (fun acc scent =>
      let r := tickScent s.pheromones s.emissionHistory now scent
      (acc.1 ++ [r.1], if r.2 then acc.2 ++ [r.1.scent_id] else acc.2))
    ([], [])
  ({ s with scents := result.1 }, result.2)

/-- Iterated evaluation loop: run `evaluateScents` at each tick time and
count the fired triggers. -/
noncomputable def evalLoop (s : BlackboardState) (ticks : List ℝ) : BlackboardState × ℕ :=
  ticks.foldl
    (fun acc now =>
      let r := evaluateScents acc.1 now
      (r.1, acc.2 + r.2.length))
    (s, 0)

/-- Params of a JSON-RPC call, a sum over the method-specific types; the
unchecked casts of the dispatch read a mismatched shape as absent fields. -/
inductive RpcParams where
  | emitP (p : EmitParams)
  | sniffP (p : SniffParams)
  | registerScentP (p : RegisterScentParams)
  | deregisterScentP (scent_id : String)
  | evaporateP (p : EvaporateParams)
  | inspectP
  | subscribeP (scent_id : String)
  | unsubscribeP (scent_id : String)
  | otherP

def RpcParams.asEmit : RpcParams → EmitParams
  | RpcParams.emitP p => p
  | _ => { trail := "", type := "", intensity := 0 }

def RpcParams.asSniff : RpcParams → SniffParams
  | RpcParams.sniffP p => p
  | _ => {}

def RpcParams.asRegisterScent : RpcParams → RegisterScentParams
  | RpcParams.registerScentP p => p
  | _ => { scent_id := "", condition := ScentCondition.composite CompositeOp.and [] }

def RpcParams.asEvaporate : RpcParams → EvaporateParams
  | RpcParams.evaporateP p => p
  | _ => {}

def RpcParams.asScentId : RpcParams → String
  | RpcParams.deregisterScentP i => i
  | RpcParams.subscribeP i => i
  | RpcParams.unsubscribeP i => i
  | _ => ""

/-- A POST body as it reaches the handler: a parsed JSON object whose
envelope fields may each be absent; the id is string-or-number, collapsed
to a number here. -/
structure RawRequest where
  jsonrpc : Option String := Option.none
  id : Option ℕ := Option.none
  method : Option String := Option.none
  params : RpcParams := RpcParams.otherP

/-- The reply of the RPC handler, reduced to result versus error code. -/
inductive RpcReply where
  | result
  | rpcError (code : Int)
  deriving DecidableEq

/-- Embedding of `validateEnvelope` from `validation.ts`: failure of the
`JsonRpcRequestSchema` parse (`jsonrpc = "2.0"`, id string-or-number,
method a non-empty string) yields the JSON-RPC error code `-32600`. This
helper is exported by `validation.ts` but never called by `server.ts`. -/
def validateEnvelope (req : RawRequest) : Option Int :=
  match req.jsonrpc, req.id, req.method with
  | some v, some _, some m => if v = "2.0" ∧ 1 ≤ m.length then Option.none else some (-32600)
  | _, _, _ => some (-32600)

/-- Embedding of `SbpServer.handleRpc`: the body is destructured without
any envelope or param validation and dispatched on the method string;
unknown (or absent) methods return the error `-32601`. -/
noncomputable def handleRpc (opts : BlackboardOptions) (s : BlackboardState) (req : RawRequest)
    (now : ℝ) (freshId : ℕ) : RpcReply × BlackboardState :=
  match req.method with
  | some "sbp/emit" => (RpcReply.result, (emit opts s req.params.asEmit now freshId).2)
  | some "sbp/sniff" => (RpcReply.result, s)
  | some "sbp/register_scent" => (RpcReply.result, (registerScent s req.params.asRegisterScent now).2)
  | some "sbp/deregister_scent" => (RpcReply.result, (deregisterScent s req.params.asScentId).1)
  | some "sbp/evaporate" => (RpcReply.result, (evaporate s req.params.asEvaporate now).2)
  | some "sbp/inspect" => (RpcReply.result, s)
  | some "sbp/subscribe" => (RpcReply.result, s)
  | some "sbp/unsubscribe" => (RpcReply.result, s)
  | some _ => (RpcReply.rpcError (-32601), s)
  | Option.none => (RpcReply.rpcError (-32601), s)

/-- Embedding of `SbpServer.handlePost`: the body goes straight to
`handleRpc` (session bookkeeping aside); no validation happens first. -/
noncomputable def handlePost (opts : BlackboardOptions) (s : BlackboardState) (req : RawRequest)
    (now : ℝ) (freshId : ℕ) : RpcReply × BlackboardState :=
  handleRpc opts s req now freshId

/-- Failing input for claim C7: a POST body whose `jsonrpc` field is
absent, with a valid id and the known method `sbp/sniff`. -/
def badEnvelopeRequest : RawRequest :=
  { jsonrpc := Option.none
    id := some 1
    method := some "sbp/sniff"
    params := RpcParams.sniffP {} }

/-- C7: `validateEnvelope` classifies the body without `jsonrpc` as
invalid with code -32600, but `handlePost` hands the body straight to
`handleRpc`, which dispatches it and returns a result; only the unknown
method case of the claim (-32601) is implemented. `server.ts` never calls
`validateEnvelope` or `validateParams`, although its own integration
tests expect the -32600 and -32602 errors. -/
theorem handlePost_skips_envelope_validation :
    validateEnvelope badEnvelopeRequest = some (-32600) ∧
      (handlePost {} {} badEnvelopeRequest 0 0).1 = RpcReply.result ∧
      (handleRpc {} {} { method := some "sbp/unknown" } 0 0).1 = RpcReply.rpcError (-32601) := by
  refine ⟨rfl, ?_, ?_⟩ <;> rfl

/-- Membership in the insertion-ordered deduplication. -/
theorem mem_uniqueInOrder_aux {α : Type} [DecidableEq α] (l acc : List α) (x : α) :
    x ∈ l.foldl (fun acc y => if y ∈ acc then acc else acc ++ [y]) acc ↔ x ∈ acc ∨ x ∈ l := by
  induction l generalizing acc with
  | nil => simp
  | cons a t ih =>
    simp only [List.foldl_cons]
    rw [ih]
    by_cases h : a ∈ acc
    · simp only [if_pos h, List.mem_cons]
      constructor
      · rintro (hx | hx)
        · exact Or.inl hx
        · exact Or.inr (Or.inr hx)
      · rintro (hx | rfl | hx)
        · exact Or.inl hx
        · exact Or.inl h
        · exact Or.inr hx
    · simp only [if_neg h, List.mem_append, List.mem_cons, List.mem_singleton]
      tauto

theorem mem_uniqueInOrder {α : Type} [DecidableEq α] (l : List α) (x : α) :
    x ∈ uniqueInOrder l ↔ x ∈ l := by
  unfold uniqueInOrder
  rw [mem_uniqueInOrder_aux]
  simp

/-- C9: evaporating with no filters deletes the whole store; the count is
the prior store size and the affected trails are exactly the trails
present, immortal and live pheromones included. -/
theorem evaporate_no_filters_clears_store (s : BlackboardState) (now : ℝ) :
    (evaporate s {} now).2.pheromones = [] ∧
      (evaporate s {} now).1.evaporated_count = s.pheromones.length ∧
      ∀ t, t ∈ (evaporate s {} now).1.trails_affected ↔ ∃ p ∈ s.pheromones, p.trail = t := by
  have hall : ∀ p : Pheromone, evaporateMatches {} now p = true := by
    intro p
    unfold evaporateMatches
    rfl
  refine ⟨?_, ?_, ?_⟩
  · show (s.pheromones.filter fun p => !(evaporateMatches {} now p)) = []
    simp [hall]
  · show (s.pheromones.filter (evaporateMatches {} now)).length = s.pheromones.length
    simp [hall]
  · intro t
    show t ∈ uniqueInOrder ((s.pheromones.filter (evaporateMatches {} now)).map Pheromone.trail) ↔ _
    rw [mem_uniqueInOrder]
    simp [hall, eq_comm]

/-- Replacing the stored scent under an existing key makes it the first
hit of a lookup by that key. -/
theorem find?_map_replace (scents : List Scent) (sc : Scent)
    (h : ∃ w ∈ scents, w.scent_id = sc.scent_id) :
    (scents.map fun x => if x.scent_id = sc.scent_id then sc else x).find?
      (fun x => x.scent_id == sc.scent_id) = some sc := by
  induction scents with
  | nil => simp at h
  | cons a t ih =>
    obtain ⟨w, hw, hweq⟩ := h
    by_cases ha : a.scent_id = sc.scent_id
    · simp only [List.map_cons, if_pos ha]
      rw [List.find?_cons_of_pos]
      simp
    · simp only [List.map_cons, if_neg ha]
      rw [List.find?_cons_of_neg]
      · apply ih
        rcases List.mem_cons.mp hw with rfl | hw2
        · exact absurd hweq ha
        · exact ⟨w, hw2, hweq⟩
      · simp [ha]

/-- Lookup after a `setScent` upsert always yields the new scent. -/
theorem find?_setScent (scents : List Scent) (sc : Scent) :
    (setScent scents sc).find? (fun x => x.scent_id == sc.scent_id) = some sc := by
  unfold setScent
  by_cases h : scents.any (fun x => x.scent_id == sc.scent_id) = true
  · rw [if_pos h]
    rw [List.any_eq_true] at h
    obtain ⟨w, hw, hweq⟩ := h
    exact find?_map_replace scents sc ⟨w, hw, by simpa using hweq⟩
  · rw [if_neg h]
    rw [List.find?_append]
    have hnone : scents.find? (fun x => x.scent_id == sc.scent_id) = Option.none := by
      rw [List.find?_eq_none]
      intro x hx
      by_contra hc
      exact h (List.any_eq_true.mpr ⟨x, hx, by simpa using hc⟩)
    rw [hnone]
    simp

/-- C8: the first registration of a scent id returns `registered` and any
subsequent one returns `updated`; after any call the scent table is
marked as containing the id, and the stored scent is `scentOfParams` of
the last params alone, with runtime fields reset to `null` and `false`. -/
theorem registerScent_upsert (s : BlackboardState) (params : RegisterScentParams) (now : ℝ) :
    ((registerScent s params now).1.status =
        if s.scents.any (fun x => x.scent_id == params.scent_id) then RegStatus.updated
        else RegStatus.registered) ∧
      ((registerScent s params now).2.scents.any fun x => x.scent_id == params.scent_id) = true ∧
      (registerScent s params now).2.scents.find? (fun x => x.scent_id == params.scent_id) =
        some (scentOfParams params) ∧
      (scentOfParams params).last_triggered_at = Option.none ∧
      (scentOfParams params).last_condition_met = false := by
  have hid : (scentOfParams params).scent_id = params.scent_id := rfl
  have hfind : (setScent s.scents (scentOfParams params)).find?
      (fun x => x.scent_id == params.scent_id) = some (scentOfParams params) :=
    find?_setScent s.scents (scentOfParams params)
  refine ⟨rfl, ?_, hfind, rfl, rfl⟩
  rw [List.any_eq_true]
  exact ⟨scentOfParams params, List.mem_of_find?_eq_some hfind, by simpa using hid⟩

/-- C10: a composite `not` condition negates the met flag of its first
child only; additional children never change `met`, while every child
still contributes to the value (the count of met children) and to the
deduplicated union of matching pheromone ids. -/
theorem evaluateComposite_not_first_child (c0 : ScentCondition) (rest : List ScentCondition)
    (ctx : EvaluationContext) :
    (evaluateComposite CompositeOp.not (c0 :: rest) ctx).met = !(evaluateCondition c0 ctx).met ∧
      (evaluateComposite CompositeOp.not (c0 :: rest) ctx).met =
        (evaluateComposite CompositeOp.not [c0] ctx).met ∧
      (evaluateComposite CompositeOp.not (c0 :: rest) ctx).value =
        (((evalConditionList (c0 :: rest) ctx).filter fun r => r.met).length : ℝ) ∧
      (evaluateComposite CompositeOp.not (c0 :: rest) ctx).matchingPheromoneIds =
        uniqueInOrder ((evalConditionList (c0 :: rest) ctx).flatMap fun r => r.matchingPheromoneIds) := by
  refine ⟨?_, ?_, ?_, ?_⟩
  · simp only [evaluateComposite, evalConditionList]
    simp
  · simp only [evaluateComposite, evalConditionList]
    simp
  · simp only [evaluateComposite]
  · simp only [evaluateComposite]

/-- Nonempty list intersection stated existentially. -/
theorem inter_ne_nil_iff {α : Type} [DecidableEq α] (l1 l2 : List α) :
    l1 ∩ l2 ≠ [] ↔ ∃ a ∈ l1, a ∈ l2 := by
  rw [Ne, List.eq_nil_iff_forall_not_mem]
  push_neg
  simp [List.mem_inter_iff]

/-- Empty list intersection stated universally. -/
theorem inter_eq_nil_iff {α : Type} [DecidableEq α] (l1 l2 : List α) :
    l1 ∩ l2 = [] ↔ ∀ a ∈ l1, a ∉ l2 := by
  rw [List.eq_nil_iff_forall_not_mem]
  simp [List.mem_inter_iff]

/-- Tag filter semantics worded as in the spec: the tag set meets a
non-empty `any` clause through a nonempty intersection, a non-empty `all`
clause through containment, and a non-empty `none` clause through an
empty intersection; an empty or missing clause is satisfied. -/
def specTagMatch (tagSet : List String) (tf : TagFilter) : Prop :=
  (∀ l, tf.any = some l → l ≠ [] → tagSet ∩ l ≠ []) ∧
  (∀ l, tf.all = some l → l ≠ [] → l ⊆ tagSet) ∧
  (∀ l, tf.none = some l → l ≠ [] → tagSet ∩ l = [])

theorem anyClause_iff (tagSet : List String) (a : Option (List String)) :
    (match a with
     | some l => if 0 < l.length then l.any (fun t => tagSet.contains t) else true
     | Option.none => true) = true ↔ ∀ l, a = some l → l ≠ [] → tagSet ∩ l ≠ [] := by
  cases a with
  | none => simp
  | some l =>
    show (if 0 < l.length then l.any (fun t => tagSet.contains t) else true) = true ↔ _
    rcases l with _ | ⟨x, xs⟩
    · simp
    · rw [if_pos (by simp)]
      constructor
      · intro h m hm hne
        injection hm with hm
        subst hm
        rw [inter_ne_nil_iff]
        obtain ⟨t, ht, ht2⟩ := List.any_eq_true.mp h
        exact ⟨t, List.elem_iff.mp ht2, ht⟩
      · intro h
        have hx := h (x :: xs) rfl (by simp)
        rw [inter_ne_nil_iff] at hx
        obtain ⟨t, ht1, ht2⟩ := hx
        exact List.any_eq_true.mpr ⟨t, ht2, List.elem_iff.mpr ht1⟩

theorem allClause_iff (tagSet : List String) (a : Option (List String)) :
    (match a with
     | some l => if 0 < l.length then l.all (fun t => tagSet.contains t) else true
     | Option.none => true) = true ↔ ∀ l, a = some l → l ≠ [] → l ⊆ tagSet := by
  cases a with
  | none => simp
  | some l =>
    show (if 0 < l.length then l.all (fun t => tagSet.contains t) else true) = true ↔ _
    rcases l with _ | ⟨x, xs⟩
    · simp
    · rw [if_pos (by simp)]
      constructor
      · intro h m hm hne
        injection hm with hm
        subst hm
        intro t ht
        exact List.elem_iff.mp (List.all_eq_true.mp h t ht)
      · intro h
        refine List.all_eq_true.mpr fun t ht => ?_
        exact List.elem_iff.mpr (h (x :: xs) rfl (by simp) ht)

theorem noneClause_iff (tagSet : List String) (a : Option (List String)) :
    (match a with
     | some l => if 0 < l.length then !(l.any fun t => tagSet.contains t) else true
     | Option.none => true) = true ↔ ∀ l, a = some l → l ≠ [] → tagSet ∩ l = [] := by
  cases a with
  | none => simp
  | some l =>
    show (if 0 < l.length then !(l.any fun t => tagSet.contains t) else true) = true ↔ _
    rcases l with _ | ⟨x, xs⟩
    · simp
    · rw [if_pos (by simp)]
      constructor
      · intro h m hm hne
        injection hm with hm
        subst hm
        rw [inter_eq_nil_iff]
        intro t ht1 ht2
        simp only [Bool.not_eq_eq_eq_not, Bool.not_true] at h
        have := List.any_eq_false.mp h t ht2
        exact this (List.elem_iff.mpr ht1)
      · intro h
        have hx := h (x :: xs) rfl (by simp)
        rw [inter_eq_nil_iff] at hx
        simp only [Bool.not_eq_eq_eq_not, Bool.not_true]
        refine List.any_eq_false.mpr fun t ht => ?_
        intro hc
        exact hx t (List.elem_iff.mp hc) ht

/-- The code tag filter agrees with the spec wording. -/
theorem matchTags_iff (tagSet : List String) (tf : TagFilter) :
    matchTags tagSet tf = true ↔ specTagMatch tagSet tf := by
  obtain ⟨a, al, no⟩ := tf
  unfold matchTags specTagMatch
  simp only [Bool.and_eq_true]
  rw [anyClause_iff tagSet a, allClause_iff tagSet al, noneClause_iff tagSet no]
  tauto

/-- The threshold filter of the code, characterised by the spec wording. -/
theorem thresholdMatch_iff (c : ThresholdCondition) (now : ℝ) (p : Pheromone) :
    thresholdMatch c now p = true ↔
      p.trail = c.trail ∧ (c.signal_type = "*" ∨ p.type = c.signal_type) ∧
        ¬ isEvaporated p now ∧ ∀ tf, c.tags = some tf → specTagMatch p.tags tf := by
  unfold thresholdMatch
  simp only [Bool.and_eq_true, Bool.or_eq_true, decide_eq_true_eq, Bool.not_eq_true',
    decide_eq_false_iff_not]
  cases htags : c.tags with
  | none => simp [and_assoc]
  | some tf => simp [matchTags_iff, and_assoc]

/-- Comparison operators as relations, from the spec. -/
def specCompare (a : ℝ) (op : CmpOp) (b : ℝ) : Prop :=
  match op with
  | CmpOp.ge => a ≥ b
  | CmpOp.gt => a > b
  | CmpOp.le => a ≤ b
  | CmpOp.lt => a < b
  | CmpOp.eq => a = b
  | CmpOp.ne => a ≠ b

/-- Aggregates over the matched intensities as worded in the claim: sum,
max (0 for no matches), avg (0 for no matches), count, any. -/
noncomputable def specAggregate (agg : Aggregation) (intensities : List ℝ) : ℝ :=
  match agg with
  | Aggregation.sum => intensities.sum
  | Aggregation.max => (intensities.max?).getD 0
  | Aggregation.avg => if intensities = [] then 0 else intensities.sum / (intensities.length : ℝ)
  | Aggregation.count => (intensities.length : ℝ)
  | Aggregation.any => if intensities = [] then 0 else 1

/-- C5: the threshold evaluator selects exactly the pheromones given by
the spec filter (trail equal, type equal or wildcard, not evaporated, tag
filter satisfied), its value is the spec aggregate over their current
intensities, its met flag is the operator comparison against the
condition value, and its id list is that of the selected pheromones. -/
theorem evaluateThreshold_matches_spec (c : ThresholdCondition) (ctx : EvaluationContext) :
    (∀ p, p ∈ ctx.pheromones.filter (thresholdMatch c ctx.now) ↔
        p ∈ ctx.pheromones ∧ p.trail = c.trail ∧
          (c.signal_type = "*" ∨ p.type = c.signal_type) ∧
          ¬ isEvaporated p ctx.now ∧ ∀ tf, c.tags = some tf → specTagMatch p.tags tf) ∧
      (evaluateThreshold c ctx).value =
        specAggregate c.aggregation
          ((ctx.pheromones.filter (thresholdMatch c ctx.now)).map fun p => computeIntensity p ctx.now) ∧
      ((evaluateThreshold c ctx).met = true ↔
        specCompare (evaluateThreshold c ctx).value c.operator c.value) ∧
      (evaluateThreshold c ctx).matchingPheromoneIds =
        (ctx.pheromones.filter (thresholdMatch c ctx.now)).map Pheromone.id := by
  refine ⟨?_, ?_, ?_, rfl⟩
  · intro p
    rw [List.mem_filter, thresholdMatch_iff]
  · show (match c.aggregation with
      | Aggregation.sum => _
      | Aggregation.max => _
      | Aggregation.avg => _
      | Aggregation.count => _
      | Aggregation.any => _) = _
    cases c.aggregation with
    | sum =>
      show ((ctx.pheromones.filter (thresholdMatch c ctx.now)).map
          fun p => computeIntensity p ctx.now).foldl (· + ·) 0 = _
      rw [specAggregate, List.sum_eq_foldl]
    | max =>
      show (match ((ctx.pheromones.filter (thresholdMatch c ctx.now)).map
          fun p => computeIntensity p ctx.now) with
        | [] => (0 : ℝ)
        | x :: xs => xs.foldl max x) = _
      rw [specAggregate]
      cases ((ctx.pheromones.filter (thresholdMatch c ctx.now)).map
          fun p => computeIntensity p ctx.now) with
      | nil => simp [List.max?]
      | cons x xs => simp [List.max?]
    | avg =>
      show (if 0 < ((ctx.pheromones.filter (thresholdMatch c ctx.now)).map
            fun p => computeIntensity p ctx.now).length then
          (((ctx.pheromones.filter (thresholdMatch c ctx.now)).map
            fun p => computeIntensity p ctx.now).foldl (· + ·) 0) /
            ((((ctx.pheromones.filter (thresholdMatch c ctx.now)).map
              fun p => computeIntensity p ctx.now)).length : ℝ)
        else 0) = _
      rw [specAggregate]
      cases h : ((ctx.pheromones.filter (thresholdMatch c ctx.now)).map
          fun p => computeIntensity p ctx.now) with
      | nil => simp
      | cons x xs => simp [List.sum_eq_foldl]
    | count =>
      show ((((ctx.pheromones.filter (thresholdMatch c ctx.now))).length : ℕ) : ℝ) = _
      rw [specAggregate]
      simp
    | any =>
      show (if 0 < ((ctx.pheromones.filter (thresholdMatch c ctx.now))).length then (1 : ℝ)
        else 0) = _
      rw [specAggregate]
      rcases h : (ctx.pheromones.filter (thresholdMatch c ctx.now)) with _ | ⟨x, xs⟩ <;> simp [h]
  · show compare (evaluateThreshold c ctx).value c.operator c.value = true ↔
        specCompare (evaluateThreshold c ctx).value c.operator c.value
    generalize (evaluateThreshold c ctx).value = v
    cases c.operator <;> simp [compare, specCompare]

/-- C2 amended: when a merge strategy other than `new` finds an existing
non-evaporated pheromone with matching trail, type and payload hash, the
emit returns one of the merge actions with the previous intensity, stores
the merged pheromone under the same id, and updates it per strategy:
`reinforce` and `replace` set the clamped intensity, `replace` overwrites
payload, tags and (when supplied and non-empty) `source_agent`, `max`
takes the larger of previous and clamped, `add` their sum clamped to 1;
`last_reinforced_at` is refreshed in every case. -/
theorem emit_merge_behaviour (opts : BlackboardOptions) (s : BlackboardState) (params : EmitParams)
    (now : ℝ) (freshId : ℕ) (ex : Pheromone)
    (hstrat : params.merge_strategy.getD MergeStrategy.reinforce ≠ MergeStrategy.new)
    (hfind : findMergeTarget s.pheromones params.trail params.type
        (hashPayload (params.payload.getD 0)) now = some ex) :
    (emit opts s params now freshId).1.action ∈
        [EmitAction.reinforced, EmitAction.replaced, EmitAction.merged] ∧
      (emit opts s params now freshId).1.previous_intensity = some (computeIntensity ex now) ∧
      (emit opts s params now freshId).1.pheromone_id = ex.id ∧
      (emit opts s params now freshId).2.pheromones =
        s.pheromones.map (fun q => if q.id = ex.id then
          mergePheromone (params.merge_strategy.getD MergeStrategy.reinforce) ex
            (max 0 (min 1 params.intensity)) now (params.payload.getD 0) (params.tags.getD [])
            params.source_agent (computeIntensity ex now)
          else q) ∧
      ∀ upd, upd = mergePheromone (params.merge_strategy.getD MergeStrategy.reinforce) ex
          (max 0 (min 1 params.intensity)) now (params.payload.getD 0) (params.tags.getD [])
          params.source_agent (computeIntensity ex now) →
        upd.last_reinforced_at = now ∧
        (params.merge_strategy.getD MergeStrategy.reinforce = MergeStrategy.reinforce →
          upd.initial_intensity = max 0 (min 1 params.intensity)) ∧
        (params.merge_strategy.getD MergeStrategy.reinforce = MergeStrategy.replace →
          upd.initial_intensity = max 0 (min 1 params.intensity) ∧
          upd.payload = params.payload.getD 0 ∧
          upd.tags = params.tags.getD [] ∧
          ∀ sa, params.source_agent = some sa → sa ≠ "" → upd.source_agent = some sa) ∧
        (params.merge_strategy.getD MergeStrategy.reinforce = MergeStrategy.max →
          upd.initial_intensity = max (computeIntensity ex now) (max 0 (min 1 params.intensity))) ∧
        (params.merge_strategy.getD MergeStrategy.reinforce = MergeStrategy.add →
          upd.initial_intensity = min 1 (computeIntensity ex now + max 0 (min 1 params.intensity))) := by
  have hemit : emit opts s params now freshId =
      ({ pheromone_id := ex.id
         action := mergeAction (params.merge_strategy.getD MergeStrategy.reinforce)
         previous_intensity := some (computeIntensity ex now)
         new_intensity := computeIntensity
           (mergePheromone (params.merge_strategy.getD MergeStrategy.reinforce) ex
             (max 0 (min 1 params.intensity)) now (params.payload.getD 0) (params.tags.getD [])
             params.source_agent (computeIntensity ex now)) now }
       , { s with
            pheromones := s.pheromones.map fun q => if q.id = ex.id then
              mergePheromone (params.merge_strategy.getD MergeStrategy.reinforce) ex
                (max 0 (min 1 params.intensity)) now (params.payload.getD 0) (params.tags.getD [])
                params.source_agent (computeIntensity ex now)
              else q
            emissionHistory :=
              if opts.trackEmissionHistory then
                pruneEmissionHistory opts.emissionHistoryWindow now
                  (s.emissionHistory ++ [⟨params.trail, params.type, now⟩])
              else s.emissionHistory }) := by
    simp only [emit]
    rw [if_neg hstrat, hfind]
  rw [hemit]
  refine ⟨?_, rfl, rfl, rfl, ?_⟩
  · show mergeAction (params.merge_strategy.getD MergeStrategy.reinforce) ∈ _
    rcases hs : params.merge_strategy.getD MergeStrategy.reinforce <;> simp [mergeAction]
  · intro upd hupd
    subst hupd
    rcases hs : params.merge_strategy.getD MergeStrategy.reinforce
    · exact ⟨rfl, fun _ => rfl, by simp [hs], by simp [hs], by simp [hs]⟩
    · refine ⟨rfl, by simp [hs], ?_, by simp [hs], by simp [hs]⟩
      intro _
      refine ⟨rfl, rfl, rfl, ?_⟩
      intro sa hsa hne
      show (match params.source_agent with
        | some v => if v = "" then ex.source_agent else some v
        | Option.none => ex.source_agent) = some sa
      rw [hsa]
      show (if sa = "" then ex.source_agent else some sa) = some sa
      rw [if_neg hne]
    · refine ⟨rfl, by simp [hs], by simp [hs], fun _ => rfl, by simp [hs]⟩
    · refine ⟨rfl, by simp [hs], by simp [hs], by simp [hs], fun _ => rfl⟩
    · exact absurd hs hstrat

/-- The existing pheromone of the C2 counterexample, carrying a non-empty
source agent. -/
noncomputable def pheromoneC2 : Pheromone :=
  { id := 0
    trail := "a"
    type := "b"
    emitted_at := 0
    last_reinforced_at := 0
    initial_intensity := 1 / 2
    decay_model := DecayModel.immortal
    payload := 0
    source_agent := some "alice"
    tags := []
    ttl_floor := 1 / 100 }

noncomputable def stateC2 : BlackboardState := { pheromones := [pheromoneC2] }

/-- A replace emit supplying the empty string as source agent. -/
noncomputable def paramsC2 : EmitParams :=
  { trail := "a"
    type := "b"
    intensity := 3 / 4
    merge_strategy := some MergeStrategy.replace
    source_agent := some "" }

/-- C2 counterexample: the claim says `replace` overwrites `source_agent`
whenever it is supplied, but a supplied empty string is falsy in the code
and the stored pheromone keeps its previous source agent. -/
theorem emit_replace_keeps_empty_source_agent :
    (emit {} stateC2 paramsC2 0 1).1.action = EmitAction.replaced ∧
      (emit {} stateC2 paramsC2 0 1).2.pheromones.map Pheromone.source_agent = [some "alice"] ∧
      paramsC2.source_agent = some "" ∧ some "alice" ≠ (some "" : Option String) := by
  have hfind : findMergeTarget stateC2.pheromones paramsC2.trail paramsC2.type
      (hashPayload (paramsC2.payload.getD 0)) 0 = some pheromoneC2 := by
    show findMergeTarget [pheromoneC2] "a" "b" 0 0 = some pheromoneC2
    rw [findMergeTarget, if_pos]
    refine ⟨rfl, rfl, rfl, ?_⟩
    show ¬ computeIntensity pheromoneC2 0 < pheromoneC2.ttl_floor
    unfold computeIntensity pheromoneC2
    norm_num
  have hemit : emit {} stateC2 paramsC2 0 1 =
      ({ pheromone_id := pheromoneC2.id
         action := mergeAction MergeStrategy.replace
         previous_intensity := some (computeIntensity pheromoneC2 0)
         new_intensity := computeIntensity
           (mergePheromone MergeStrategy.replace pheromoneC2 (max 0 (min 1 paramsC2.intensity)) 0
             0 [] (some "") (computeIntensity pheromoneC2 0)) 0 }
       , { stateC2 with
            pheromones := stateC2.pheromones.map fun q => if q.id = pheromoneC2.id then
              mergePheromone MergeStrategy.replace pheromoneC2 (max 0 (min 1 paramsC2.intensity)) 0
                0 [] (some "") (computeIntensity pheromoneC2 0)
              else q
            emissionHistory :=
              pruneEmissionHistory (({} : BlackboardOptions).emissionHistoryWindow) 0
                ([] ++ [⟨"a", "b", 0⟩]) }) := by
    simp only [emit]
    rw [if_neg (by decide : ¬ (paramsC2.merge_strategy.getD MergeStrategy.reinforce = MergeStrategy.new))]
    rw [hfind]
    rfl
  rw [hemit]
  refine ⟨rfl, ?_, rfl, by simp⟩
  show ([pheromoneC2].map fun q => if q.id = pheromoneC2.id then _ else q).map Pheromone.source_agent = _
  rw [List.map_cons, List.map_nil, if_pos rfl, List.map_cons, List.map_nil]
  show [(mergePheromone MergeStrategy.replace pheromoneC2 (max 0 (min 1 paramsC2.intensity)) 0
      0 [] (some "") (computeIntensity pheromoneC2 0)).source_agent] = _
  rw [mergePheromone]
  simp [pheromoneC2]

/-- Concrete state for the C2 witness: a single immortal pheromone. -/
noncomputable def pheromoneC2w : Pheromone :=
  { id := 0
    trail := "a"
    type := "b"
    emitted_at := 0
    last_reinforced_at := 0
    initial_intensity := 1 / 2
    decay_model := DecayModel.immortal
    payload := 0
    source_agent := Option.none
    tags := []
    ttl_floor := 1 / 100 }

/-- C2 witness: the merge theorem applied to a concrete reinforce emit on
a one-pheromone store. -/
theorem emit_merge_behaviour_witness :
    ((emit {} { pheromones := [pheromoneC2w] }
        { trail := "a", type := "b", intensity := 3 / 4 } 0 1).1.action ∈
      [EmitAction.reinforced, EmitAction.replaced, EmitAction.merged]) := by
  have hfind : findMergeTarget [pheromoneC2w] "a" "b" (hashPayload 0) 0 = some pheromoneC2w := by
    rw [findMergeTarget, if_pos]
    refine ⟨rfl, rfl, rfl, ?_⟩
    show ¬ computeIntensity pheromoneC2w 0 < pheromoneC2w.ttl_floor
    unfold computeIntensity pheromoneC2w
    norm_num
  exact (emit_merge_behaviour {} { pheromones := [pheromoneC2w] }
    { trail := "a", type := "b", intensity := 3 / 4 } 0 1 pheromoneC2w
    (by decide) hfind).1

/-- Pheromone of the C6 counterexample: a step model accepted by
`StepDecaySchema` (`at_ms` nonnegative, intensity in [0,1], at least one
step) whose single step raises the intensity above the initial value. -/
noncomputable def pheromoneC6 : Pheromone :=
  { id := 0
    trail := "a"
    type := "b"
    emitted_at := 0
    last_reinforced_at := 0
    initial_intensity := 1 / 10
    decay_model := DecayModel.step [⟨5, 9 / 10⟩]
    payload := 0
    source_agent := Option.none
    tags := []
    ttl_floor := 1 / 100 }

/-- C6 counterexample: for a validated step model the intensity rises
from `1/10` at `t1 = 0` to `9/10` at `t2 = 5`, refuting monotonicity. -/
theorem computeIntensity_step_not_antitone :
    (0 : ℝ) ≤ 5 ∧ computeIntensity pheromoneC6 0 < computeIntensity pheromoneC6 5 := by
  constructor
  · norm_num
  · have h0 : computeIntensity pheromoneC6 0 = 1 / 10 := by
      unfold computeIntensity pheromoneC6
      norm_num
    have h5 : computeIntensity pheromoneC6 5 = 9 / 10 := by
      unfold computeIntensity pheromoneC6
      rw [if_neg (by norm_num)]
      show stepScanBack ([⟨5, 9 / 10⟩] : List DecayStep).reverse (5 - 0) (1 / 10) = 9 / 10
      rw [List.reverse_singleton, stepScanBack]
      rw [if_pos (by norm_num)]
    rw [h0, h5]
    norm_num

/-- Side conditions under which the decay models are monotone: positive
decay parameters as enforced by validation and, for step models, steps
sorted ascending by `at_ms` (the spec assumption) with non-increasing
intensities that never exceed the initial intensity. -/
def decayMonotoneOk (p : Pheromone) : Prop :=
  match p.decay_model with
  | DecayModel.exponential halfLife => 0 < halfLife
  | DecayModel.linear rate => 0 ≤ rate
  | DecayModel.step steps =>
      List.Pairwise (fun a b => a.at_ms ≤ b.at_ms) steps ∧
      List.Pairwise (fun a b => b.intensity ≤ a.intensity) steps ∧
      ∀ st ∈ steps, st.intensity ≤ p.initial_intensity
  | DecayModel.immortal => True

/-- A lower bound on every possible result of the backward step scan. -/
theorem le_stepScanBack (rl : List DecayStep) (e init c : ℝ)
    (hc : ∀ st ∈ rl, c ≤ st.intensity) (hci : c ≤ init) :
    c ≤ stepScanBack rl e init := by
  induction rl with
  | nil => exact hci
  | cons s rest ih =>
    rw [stepScanBack]
    by_cases h : s.at_ms ≤ e
    · rw [if_pos h]
      exact hc s (by simp)
    · rw [if_neg h]
      exact ih fun st hst => hc st (by simp [hst])

/-- An upper bound on every possible result of the backward step scan. -/
theorem stepScanBack_le (rl : List DecayStep) (e init c : ℝ)
    (hc : ∀ st ∈ rl, st.intensity ≤ c) (hci : init ≤ c) :
    stepScanBack rl e init ≤ c := by
  induction rl with
  | nil => exact hci
  | cons s rest ih =>
    rw [stepScanBack]
    by_cases h : s.at_ms ≤ e
    · rw [if_pos h]
      exact hc s (by simp)
    · rw [if_neg h]
      exact ih fun st hst => hc st (by simp [hst])

/-- The backward step scan is antitone in the elapsed time when the
intensities grow along the reversed list and stay below the initial. -/
theorem stepScanBack_antitone (rl : List DecayStep) (init : ℝ)
    (hasc : List.Pairwise (fun a b => a.intensity ≤ b.intensity) rl)
    (hinit : ∀ st ∈ rl, st.intensity ≤ init)
    (e1 e2 : ℝ) (h12 : e1 ≤ e2) :
    stepScanBack rl e2 init ≤ stepScanBack rl e1 init := by
  induction rl with
  | nil => exact le_rfl
  | cons s rest ih =>
    rw [stepScanBack, stepScanBack]
    rcases List.pairwise_cons.mp hasc with ⟨hs, htail⟩
    by_cases h1 : s.at_ms ≤ e1
    · rw [if_pos h1, if_pos (le_trans h1 h12)]
    · rw [if_neg h1]
      by_cases h2 : s.at_ms ≤ e2
      · rw [if_pos h2]
        exact le_stepScanBack rest e1 init s.intensity hs (hinit s (by simp))
      · rw [if_neg h2]
        exact ih htail fun st hst => hinit st (by simp [hst])

/-- The current intensity never exceeds the initial intensity under the
monotonicity side conditions. -/
theorem computeIntensity_le_initial (p : Pheromone) (h0 : 0 ≤ p.initial_intensity)
    (hd : decayMonotoneOk p) (t : ℝ) :
    computeIntensity p t ≤ p.initial_intensity := by
  unfold computeIntensity
  by_cases he : t - p.last_reinforced_at ≤ 0
  · rw [if_pos he]
  · rw [if_neg he]
    push_neg at he
    unfold decayMonotoneOk at hd
    cases hdm : p.decay_model with
    | exponential halfLife =>
      rw [hdm] at hd
      have hd2 : 0 < halfLife := hd
      calc p.initial_intensity * (1 / 2 : ℝ) ^ ((t - p.last_reinforced_at) / halfLife)
          ≤ p.initial_intensity * 1 := by
            refine mul_le_mul_of_nonneg_left ?_ h0
            exact Real.rpow_le_one (by norm_num) (by norm_num)
              (div_nonneg (le_of_lt he) (le_of_lt hd2))
        _ = p.initial_intensity := mul_one _
    | linear rate =>
      rw [hdm] at hd
      have hd2 : 0 ≤ rate := hd
      refine max_le h0 ?_
      have : 0 ≤ rate * (t - p.last_reinforced_at) := mul_nonneg hd2 (le_of_lt he)
      linarith
    | step steps =>
      rw [hdm] at hd
      have hd2 : List.Pairwise (fun a b => a.at_ms ≤ b.at_ms) steps ∧
          List.Pairwise (fun a b => b.intensity ≤ a.intensity) steps ∧
          ∀ st ∈ steps, st.intensity ≤ p.initial_intensity := hd
      refine stepScanBack_le steps.reverse _ _ _ ?_ le_rfl
      intro st hst
      exact hd2.2.2 st (List.mem_reverse.mp hst)
    | immortal => exact le_rfl

/-- C6 amended: the current intensity is monotone non-increasing in time
for exponential and linear models with positive parameters (and trivially
for immortal), and for step models whose steps are sorted ascending with
non-increasing intensities bounded by the initial intensity; an arbitrary
validated step model can increase, as the counterexample shows. -/
theorem computeIntensity_antitone (p : Pheromone) (h0 : 0 ≤ p.initial_intensity)
    (hd : decayMonotoneOk p) (t1 t2 : ℝ) (h12 : t1 ≤ t2) :
    computeIntensity p t2 ≤ computeIntensity p t1 := by
  by_cases he1 : t1 - p.last_reinforced_at ≤ 0
  · have ht1 : computeIntensity p t1 = p.initial_intensity := by
      unfold computeIntensity
      rw [if_pos he1]
    rw [ht1]
    exact computeIntensity_le_initial p h0 hd t2
  · have he2 : ¬ t2 - p.last_reinforced_at ≤ 0 := by
      push_neg at he1 ⊢
      linarith
    unfold computeIntensity
    rw [if_neg he1, if_neg he2]
    push_neg at he1 he2
    unfold decayMonotoneOk at hd
    cases hdm : p.decay_model with
    | exponential halfLife =>
      rw [hdm] at hd
      have hd2 : 0 < halfLife := hd
      refine mul_le_mul_of_nonneg_left ?_ h0
      refine Real.rpow_le_rpow_of_exponent_ge (by norm_num) (by norm_num) ?_
      exact (div_le_div_iff_of_pos_right hd2).mpr (by linarith)
    | linear rate =>
      rw [hdm] at hd
      have hd2 : 0 ≤ rate := hd
      refine max_le (le_max_left 0 _) ?_
      have hr : rate * (t1 - p.last_reinforced_at) ≤ rate * (t2 - p.last_reinforced_at) :=
        mul_le_mul_of_nonneg_left (by linarith) hd2
      refine le_max_of_le_right ?_
      linarith
    | step steps =>
      rw [hdm] at hd
      have hd2 : List.Pairwise (fun a b => a.at_ms ≤ b.at_ms) steps ∧
          List.Pairwise (fun a b => b.intensity ≤ a.intensity) steps ∧
          ∀ st ∈ steps, st.intensity ≤ p.initial_intensity := hd
      refine stepScanBack_antitone steps.reverse p.initial_intensity ?_ ?_ _ _ (by linarith)
      · rw [List.pairwise_reverse]
        exact hd2.2.1
      · intro st hst
        exact hd2.2.2 st (List.mem_reverse.mp hst)
    | immortal => exact le_rfl

/-- Pheromone of the C6 witness: linear decay at rate `1/1000`. -/
noncomputable def pheromoneC6w : Pheromone :=
  { id := 0
    trail := "a"
    type := "b"
    emitted_at := 0
    last_reinforced_at := 0
    initial_intensity := 1 / 2
    decay_model := DecayModel.linear (1 / 1000)
    payload := 0
    source_agent := Option.none
    tags := []
    ttl_floor := 1 / 100 }

/-- C6 witness: the amended monotonicity theorem applied to the concrete
linear pheromone at times 1 and 2. -/
theorem computeIntensity_antitone_witness :
    0 ≤ pheromoneC6w.initial_intensity ∧ decayMonotoneOk pheromoneC6w ∧ (1 : ℝ) ≤ 2 ∧
      computeIntensity pheromoneC6w 2 ≤ computeIntensity pheromoneC6w 1 := by
  have h0 : 0 ≤ pheromoneC6w.initial_intensity := by
    show (0 : ℝ) ≤ 1 / 2
    norm_num
  have hd : decayMonotoneOk pheromoneC6w := by
    show (0 : ℝ) ≤ 1 / 1000
    norm_num
  exact ⟨h0, hd, by norm_num, computeIntensity_antitone pheromoneC6w h0 hd 1 2 (by norm_num)⟩

/-- Closed form of `emit` in the merge case. -/
theorem emit_merge_eq (opts : BlackboardOptions) (s : BlackboardState) (params : EmitParams)
    (now : ℝ) (freshId : ℕ) (ex : Pheromone)
    (hstrat : params.merge_strategy.getD MergeStrategy.reinforce ≠ MergeStrategy.new)
    (hfind : findMergeTarget s.pheromones params.trail params.type
        (hashPayload (params.payload.getD 0)) now = some ex) :
    emit opts s params now freshId =
      ({ pheromone_id := ex.id
         action := mergeAction (params.merge_strategy.getD MergeStrategy.reinforce)
         previous_intensity := some (computeIntensity ex now)
         new_intensity := computeIntensity
           (mergePheromone (params.merge_strategy.getD MergeStrategy.reinforce) ex
             (max 0 (min 1 params.intensity)) now (params.payload.getD 0) (params.tags.getD [])
             params.source_agent (computeIntensity ex now)) now }
       , { s with
            pheromones := s.pheromones.map fun q => if q.id = ex.id then
              mergePheromone (params.merge_strategy.getD MergeStrategy.reinforce) ex
                (max 0 (min 1 params.intensity)) now (params.payload.getD 0) (params.tags.getD [])
                params.source_agent (computeIntensity ex now)
              else q
            emissionHistory :=
              if opts.trackEmissionHistory then
                pruneEmissionHistory opts.emissionHistoryWindow now
                  (s.emissionHistory ++ [⟨params.trail, params.type, now⟩])
              else s.emissionHistory }) := by
  simp only [emit]
  rw [if_neg hstrat, hfind]

/-- The pheromone created by `emit` when no merge target is found. -/
noncomputable def createdPheromone (opts : BlackboardOptions) (params : EmitParams)
    (now : ℝ) (freshId : ℕ) : Pheromone :=
  { id := freshId
    trail := params.trail
    type := params.type
    emitted_at := now
    last_reinforced_at := now
    initial_intensity := max 0 (min 1 params.intensity)
    decay_model := params.decay.getD opts.defaultDecay
    payload := params.payload.getD 0
    source_agent := params.source_agent
    tags := params.tags.getD []
    ttl_floor := opts.defaultTtlFloor }

/-- Closed form of `emit` in the create case. -/
theorem emit_create_eq (opts : BlackboardOptions) (s : BlackboardState) (params : EmitParams)
    (now : ℝ) (freshId : ℕ)
    (hnone : (if params.merge_strategy.getD MergeStrategy.reinforce = MergeStrategy.new
        then Option.none
        else findMergeTarget s.pheromones params.trail params.type
          (hashPayload (params.payload.getD 0)) now) = Option.none) :
    emit opts s params now freshId =
      ({ pheromone_id := freshId
         action := EmitAction.created
         previous_intensity := Option.none
         new_intensity := max 0 (min 1 params.intensity) }
       , { s with
            pheromones :=
              if opts.maxPheromones < (s.pheromones ++ [createdPheromone opts params now freshId]).length
              then gc (s.pheromones ++ [createdPheromone opts params now freshId]) now
              else s.pheromones ++ [createdPheromone opts params now freshId]
            emissionHistory :=
              if opts.trackEmissionHistory then
                pruneEmissionHistory opts.emissionHistoryWindow now
                  (s.emissionHistory ++ [⟨params.trail, params.type, now⟩])
              else s.emissionHistory }) := by
  simp only [emit]
  rw [hnone]
  rfl

/-- The merge update keeps the pheromone id. -/
theorem mergePheromone_id (strategy : MergeStrategy) (ex : Pheromone) (clamped now : ℝ)
    (payload : ℕ) (tags : List String) (source_agent : Option String) (prev : ℝ) :
    (mergePheromone strategy ex clamped now payload tags source_agent prev).id = ex.id := by
  cases strategy <;> rfl

/-- After an emit whose strategy is `new`, `reinforce` or `replace`, the
pheromone stored under the returned id has the clamped input intensity as
its initial intensity. -/
theorem emit_initial_clamped (opts : BlackboardOptions) (s : BlackboardState) (params : EmitParams)
    (now : ℝ) (freshId : ℕ)
    (hstrat : params.merge_strategy.getD MergeStrategy.reinforce = MergeStrategy.new ∨
      params.merge_strategy.getD MergeStrategy.reinforce = MergeStrategy.reinforce ∨
      params.merge_strategy.getD MergeStrategy.reinforce = MergeStrategy.replace)
    (hfresh : ∀ q ∈ s.pheromones, q.id ≠ freshId) :
    ∀ q ∈ (emit opts s params now freshId).2.pheromones,
      q.id = (emit opts s params now freshId).1.pheromone_id →
        q.initial_intensity = max 0 (min 1 params.intensity) := by
  rcases hex : (if params.merge_strategy.getD MergeStrategy.reinforce = MergeStrategy.new
      then Option.none
      else findMergeTarget s.pheromones params.trail params.type
        (hashPayload (params.payload.getD 0)) now) with _ | ex
  · rw [emit_create_eq opts s params now freshId hex]
    intro q hq hid
    have hq2 : q ∈ s.pheromones ++ [createdPheromone opts params now freshId] := by
      by_cases hb : opts.maxPheromones <
          (s.pheromones ++ [createdPheromone opts params now freshId]).length
      · rw [if_pos hb] at hq
        exact (List.mem_filter.mp hq).1
      · rw [if_neg hb] at hq
        exact hq
    rcases List.mem_append.mp hq2 with hq3 | hq3
    · exact absurd hid (hfresh q hq3)
    · rw [List.mem_singleton.mp hq3]
      rfl
  · have hnn : params.merge_strategy.getD MergeStrategy.reinforce ≠ MergeStrategy.new := by
      intro hc
      rw [if_pos hc] at hex
      exact Option.noConfusion hex
    have hfind : findMergeTarget s.pheromones params.trail params.type
        (hashPayload (params.payload.getD 0)) now = some ex := by
      rw [if_neg hnn] at hex
      exact hex
    rw [emit_merge_eq opts s params now freshId ex hnn hfind]
    intro q hq hid
    obtain ⟨a, _, hqa⟩ := List.mem_map.mp hq
    by_cases ha : a.id = ex.id
    · rw [if_pos ha] at hqa
      rw [← hqa]
      rcases hstrat with hs | hs | hs
      · exact absurd hs hnn
      · rw [hs]
        rfl
      · rw [hs]
        rfl
    · rw [if_neg ha] at hqa
      rw [← hqa] at hid
      exact absurd hid ha

/-- Every snapshot of a sniff result comes from a stored pheromone. -/
theorem sniff_mem_snapshot (s : BlackboardState) (sp : SniffParams) (now : ℝ)
    (snap : PheromoneSnapshot) (h : snap ∈ (sniff s sp now).pheromones) :
    ∃ q ∈ s.pheromones, snap = createSnapshot q now := by
  simp only [sniff] at h
  have h2 := List.mem_of_mem_take h
  rw [List.mem_mergeSort] at h2
  obtain ⟨q, hq, hsnap⟩ := List.mem_map.mp h2
  exact ⟨q, (List.mem_filter.mp hq).1, hsnap.symm⟩

/-- C3 amended: after `emit(..., intensity = x)` with the merge strategy
`new`, `reinforce` or `replace` (the strategies that store the clamped
input intensity), and provided the stored pheromone decays monotonically
(positive parameters; step intensities non-increasing and bounded by the
initial), every snapshot of that pheromone in any later sniff reports
`current_intensity ≤ clamp(x, 0, 1)`; the `max` and `add` strategies can
exceed the clamp, as the counterexample shows. -/
theorem emit_sniff_intensity_bound (opts : BlackboardOptions) (s : BlackboardState)
    (params : EmitParams) (now : ℝ) (freshId : ℕ)
    (hstrat : params.merge_strategy.getD MergeStrategy.reinforce = MergeStrategy.new ∨
      params.merge_strategy.getD MergeStrategy.reinforce = MergeStrategy.reinforce ∨
      params.merge_strategy.getD MergeStrategy.reinforce = MergeStrategy.replace)
    (hfresh : ∀ q ∈ s.pheromones, q.id ≠ freshId)
    (hcap : ∀ q ∈ (emit opts s params now freshId).2.pheromones,
      q.id = (emit opts s params now freshId).1.pheromone_id → decayMonotoneOk q)
    (t : ℝ) (sp : SniffParams) (snap : PheromoneSnapshot)
    (hsnap : snap ∈ (sniff (emit opts s params now freshId).2 sp t).pheromones)
    (hsid : snap.id = (emit opts s params now freshId).1.pheromone_id) :
    snap.current_intensity ≤ max 0 (min 1 params.intensity) := by
  obtain ⟨q, hq, hsq⟩ := sniff_mem_snapshot _ _ _ _ hsnap
  have hqid : q.id = (emit opts s params now freshId).1.pheromone_id := by
    rw [hsq] at hsid
    exact hsid
  have hinit := emit_initial_clamped opts s params now freshId hstrat hfresh q hq hqid
  have h0 : 0 ≤ q.initial_intensity := by
    rw [hinit]
    exact le_max_left 0 _
  have hbound := computeIntensity_le_initial q h0 (hcap q hq hqid) t
  rw [hsq]
  show computeIntensity q t ≤ _
  rw [← hinit]
  exact hbound

/-- The snapshot list of a sniff result in closed form. -/
theorem sniff_pheromones_eq (s : BlackboardState) (sp : SniffParams) (now : ℝ) :
    (sniff s sp now).pheromones =
      (((s.pheromones.filter (sniffKeep sp now)).map fun p => createSnapshot p now).mergeSort
        fun a b => decide (b.current_intensity ≤ a.current_intensity)).take (sp.limit.getD 100) := rfl

/-- Existing pheromone of the C3 counterexample: intensity `9/10`. -/
noncomputable def pheromoneC3 : Pheromone :=
  { id := 0
    trail := "a"
    type := "b"
    emitted_at := 0
    last_reinforced_at := 0
    initial_intensity := 9 / 10
    decay_model := DecayModel.immortal
    payload := 0
    source_agent := Option.none
    tags := []
    ttl_floor := 1 / 100 }

/-- A `max` merge emit with input intensity `1/10`. -/
noncomputable def paramsC3 : EmitParams :=
  { trail := "a"
    type := "b"
    intensity := 1 / 10
    merge_strategy := some MergeStrategy.max }

/-- C3 counterexample: after `emit(..., intensity = 1/10)` with the `max`
strategy onto an existing pheromone of intensity `9/10`, the sniff
reports `current_intensity = 9/10`, above `clamp(1/10, 0, 1)`. -/
theorem emit_max_sniff_exceeds_clamp :
    ((sniff (emit {} { pheromones := [pheromoneC3] } paramsC3 0 1).2 {} 0).pheromones.map
        PheromoneSnapshot.current_intensity = [9 / 10]) ∧
      ¬ ((9 / 10 : ℝ) ≤ max 0 (min 1 paramsC3.intensity)) := by
  have hfind : findMergeTarget ({ pheromones := [pheromoneC3] } : BlackboardState).pheromones
      paramsC3.trail paramsC3.type (hashPayload (paramsC3.payload.getD 0)) 0 = some pheromoneC3 := by
    show findMergeTarget [pheromoneC3] "a" "b" 0 0 = some pheromoneC3
    rw [findMergeTarget, if_pos]
    refine ⟨rfl, rfl, rfl, ?_⟩
    show ¬ computeIntensity pheromoneC3 0 < pheromoneC3.ttl_floor
    unfold computeIntensity pheromoneC3
    norm_num
  have hprev : computeIntensity pheromoneC3 0 = 9 / 10 := by
    unfold computeIntensity pheromoneC3
    norm_num
  have hemit := emit_merge_eq {} { pheromones := [pheromoneC3] } paramsC3 0 1 pheromoneC3
    (by decide) hfind
  set upd := mergePheromone (paramsC3.merge_strategy.getD MergeStrategy.reinforce) pheromoneC3
    (max 0 (min 1 paramsC3.intensity)) 0 (paramsC3.payload.getD 0) (paramsC3.tags.getD [])
    paramsC3.source_agent (computeIntensity pheromoneC3 0) with hupd
  have hupd2 : upd = { pheromoneC3 with
      initial_intensity := max (computeIntensity pheromoneC3 0) (max 0 (min 1 paramsC3.intensity))
      last_reinforced_at := 0 } := by
    rw [hupd]
    rfl
  have hci : computeIntensity upd 0 = 9 / 10 := by
    rw [hupd2, hprev]
    show (if (0 : ℝ) - 0 ≤ 0 then max (9 / 10 : ℝ) (max 0 (min 1 paramsC3.intensity)) else _) = 9 / 10
    rw [if_pos (by norm_num)]
    show max (9 / 10 : ℝ) (max 0 (min 1 (1 / 10 : ℝ))) = 9 / 10
    norm_num
  have hmap : (({ pheromones := [pheromoneC3] } : BlackboardState).pheromones.map
      fun q => if q.id = pheromoneC3.id then upd else q) = [upd] := by
    show ([pheromoneC3].map fun q => if q.id = pheromoneC3.id then upd else q) = [upd]
    rw [List.map_cons, List.map_nil, if_pos rfl]
  have hkeep : sniffKeep {} 0 upd = true := by
    have httl : upd.ttl_floor = 1 / 100 := by
      rw [hupd2]
      rfl
    simp only [sniffKeep, hci, httl]
    norm_num
  constructor
  · have hsp : (emit {} { pheromones := [pheromoneC3] } paramsC3 0 1).2.pheromones = [upd] := by
      rw [hemit]
      exact hmap
    rw [sniff_pheromones_eq, hsp]
    rw [show ([upd].filter (sniffKeep {} 0)) = [upd] by simp [hkeep]]
    rw [List.map_cons, List.map_nil]
    rw [show (List.mergeSort [createSnapshot upd 0]
        fun a b => decide (b.current_intensity ≤ a.current_intensity)) = [createSnapshot upd 0] by
      simp [List.mergeSort]]
    rw [List.take_of_length_le (by simp)]
    rw [List.map_cons, List.map_nil]
    show [computeIntensity upd 0] = [9 / 10]
    rw [hci]
  · show ¬ ((9 / 10 : ℝ) ≤ max 0 (min 1 (1 / 10 : ℝ)))
    norm_num

/-- With default sniff params, a pheromone is kept iff it is above its
floor and its intensity is nonnegative. -/
theorem sniffKeep_default (p : Pheromone) (now : ℝ)
    (hev : ¬ computeIntensity p now < p.ttl_floor)
    (hmin : (0 : ℝ) ≤ computeIntensity p now) :
    sniffKeep {} now p = true := by
  show ((((true && true) && (false || !decide (computeIntensity p now < p.ttl_floor))) &&
    decide ((0 : ℝ) ≤ computeIntensity p now)) && true) && true = true
  rw [decide_eq_false hev, decide_eq_true hmin]
  rfl

/-- Params of the C3 witness: a fresh immortal emit of intensity `4/5`. -/
noncomputable def paramsC3w : EmitParams :=
  { trail := "a"
    type := "b"
    intensity := 4 / 5
    decay := some DecayModel.immortal
    merge_strategy := some MergeStrategy.new }

/-- C3 witness: the sniff bound theorem applied to a concrete emit on the
empty store and the snapshot it produces. -/
theorem emit_sniff_intensity_bound_witness :
    (createSnapshot (createdPheromone {} paramsC3w 0 0) 0).current_intensity ≤
      max 0 (min 1 paramsC3w.intensity) := by
  have hnone : (if paramsC3w.merge_strategy.getD MergeStrategy.reinforce = MergeStrategy.new
      then Option.none
      else findMergeTarget ({} : BlackboardState).pheromones paramsC3w.trail paramsC3w.type
        (hashPayload (paramsC3w.payload.getD 0)) 0) = Option.none := by
    rw [if_pos]
    rfl
  have hemit := emit_create_eq {} {} paramsC3w 0 0 hnone
  have hsp : (emit {} {} paramsC3w 0 0).2.pheromones = [createdPheromone {} paramsC3w 0 0] := by
    rw [hemit]
    show (if ({} : BlackboardOptions).maxPheromones <
        (({} : BlackboardState).pheromones ++ [createdPheromone {} paramsC3w 0 0]).length
      then gc (({} : BlackboardState).pheromones ++ [createdPheromone {} paramsC3w 0 0]) 0
      else ({} : BlackboardState).pheromones ++ [createdPheromone {} paramsC3w 0 0]) =
      [createdPheromone {} paramsC3w 0 0]
    rw [if_neg (by simp)]
    simp
  have hci : computeIntensity (createdPheromone {} paramsC3w 0 0) 0 = 4 / 5 := by
    show (if (0 : ℝ) - 0 ≤ 0 then (createdPheromone {} paramsC3w 0 0).initial_intensity else _) = _
    rw [if_pos (by norm_num)]
    show max 0 (min 1 (4 / 5 : ℝ)) = 4 / 5
    norm_num
  have httl : (createdPheromone {} paramsC3w 0 0).ttl_floor = 1 / 100 := rfl
  have hkeep : sniffKeep {} 0 (createdPheromone {} paramsC3w 0 0) = true := by
    refine sniffKeep_default _ _ ?_ ?_
    · rw [hci, httl]
      norm_num
    · rw [hci]
      norm_num
  have hsnap : createSnapshot (createdPheromone {} paramsC3w 0 0) 0 ∈
      (sniff (emit {} {} paramsC3w 0 0).2 {} 0).pheromones := by
    rw [sniff_pheromones_eq, hsp]
    rw [show ([createdPheromone {} paramsC3w 0 0].filter (sniffKeep {} 0)) =
      [createdPheromone {} paramsC3w 0 0] by
        rw [List.filter_cons, hkeep]
        rw [if_pos rfl, List.filter_nil]]
    rw [List.map_cons, List.map_nil]
    rw [show (List.mergeSort [createSnapshot (createdPheromone {} paramsC3w 0 0) 0]
        fun a b => decide (b.current_intensity ≤ a.current_intensity)) =
        [createSnapshot (createdPheromone {} paramsC3w 0 0) 0] by simp [List.mergeSort]]
    rw [List.take_of_length_le (by simp)]
    exact List.mem_singleton.mpr rfl
  have hsid : (createSnapshot (createdPheromone {} paramsC3w 0 0) 0).id =
      (emit {} {} paramsC3w 0 0).1.pheromone_id := by
    rw [hemit]
    rfl
  have hcap : ∀ q ∈ (emit {} {} paramsC3w 0 0).2.pheromones,
      q.id = (emit {} {} paramsC3w 0 0).1.pheromone_id → decayMonotoneOk q := by
    rw [hsp]
    intro q hq _
    rw [List.mem_singleton] at hq
    subst hq
    show True
    trivial
  exact emit_sniff_intensity_bound {} {} paramsC3w 0 0 (Or.inl rfl)
    (fun q hq => absurd hq (List.not_mem_nil q)) hcap 0 {}
    (createSnapshot (createdPheromone {} paramsC3w 0 0) 0) hsnap hsid

/-- Closed form of a tick over a single-scent table. -/
theorem evaluateScents_singleton (P : List Pheromone) (hist : List Emission) (sc : Scent) (now : ℝ) :
    evaluateScents { pheromones := P, scents := [sc], emissionHistory := hist } now =
      ({ pheromones := P, scents := [(tickScent P hist now sc).1], emissionHistory := hist },
       if (tickScent P hist now sc).2 then [(tickScent P hist now sc).1.scent_id] else []) := by
  simp only [evaluateScents, List.foldl_cons, List.foldl_nil]
  rcases tickScent P hist now sc with ⟨sc2, fired⟩
  cases fired <;> rfl

/-- Closed form of the per-scent evaluation. -/
theorem tickScentEval_eq (P : List Pheromone) (hist : List Emission) (now : ℝ) (sc : Scent)
    (met fired : Bool)
    (hmet : (evaluateCondition sc.condition
      { pheromones := P, now := now, emissionHistory := hist }).met = met)
    (hfired : shouldTrigger sc met = fired) :
    tickScentEval P hist now sc =
      ({ sc with
          last_condition_met := met
          last_triggered_at := if fired then some now else sc.last_triggered_at }, fired) := by
  simp only [tickScentEval, hmet, hfired]

/-- A scent inside its cooldown window is returned untouched. -/
theorem tickScent_skip (P : List Pheromone) (hist : List Emission) (now : ℝ) (sc : Scent) (t : ℝ)
    (hlt : sc.last_triggered_at = some t) (ht : 0 < t) (hcd : now - t < sc.cooldown_ms) :
    tickScent P hist now sc = (sc, false) := by
  unfold tickScent
  rw [hlt]
  show (if t ≠ 0 ∧ now - t < sc.cooldown_ms then (sc, false) else tickScentEval P hist now sc) =
    (sc, false)
  rw [if_pos ⟨ne_of_gt ht, hcd⟩]

/-- A scent whose cooldown has elapsed (or that never fired) is evaluated. -/
theorem tickScent_eval (P : List Pheromone) (hist : List Emission) (now : ℝ) (sc : Scent)
    (h : sc.last_triggered_at = Option.none ∨
      ∃ t, sc.last_triggered_at = some t ∧ sc.cooldown_ms ≤ now - t) :
    tickScent P hist now sc = tickScentEval P hist now sc := by
  unfold tickScent
  rcases h with h | ⟨t, hlt, hcd⟩
  · rw [h]
  · rw [hlt]
    show (if t ≠ 0 ∧ now - t < sc.cooldown_ms then (sc, false) else tickScentEval P hist now sc) = _
    rw [if_neg]
    rintro ⟨-, hlt2⟩
    linarith

/-- After the first rising edge, an `edge_rising` scent over a constantly
met condition is a fixed point of the loop and fires no further trigger. -/
theorem evalLoop_edge_rising_stable
    (P : List Pheromone) (hist : List Emission)
    (i ep : String) (cond : ScentCondition) (ap : ℕ) (hy me : ℝ) (ct : Option (List String))
    (t1 : ℝ) (ts : List ℝ) (hts : ∀ t ∈ ts, t1 ≤ t)
    (hmet : ∀ t ∈ ts,
      (evaluateCondition cond { pheromones := P, now := t, emissionHistory := hist }).met = true)
    (n : ℕ) :
    List.foldl
      (fun acc now =>
        let r := evaluateScents acc.1 now
        (r.1, acc.2 + r.2.length))
      ({ pheromones := P
         scents := [⟨i, ep, cond, 0, ap, TriggerMode.edge_rising, hy, me, some t1, true, ct⟩]
         emissionHistory := hist }, n) ts =
    ({ pheromones := P
       scents := [⟨i, ep, cond, 0, ap, TriggerMode.edge_rising, hy, me, some t1, true, ct⟩]
       emissionHistory := hist }, n) := by
  induction ts generalizing n with
  | nil => rfl
  | cons t ts2 ih =>
    have htick : tickScent P hist t
        ⟨i, ep, cond, 0, ap, TriggerMode.edge_rising, hy, me, some t1, true, ct⟩ =
        (⟨i, ep, cond, 0, ap, TriggerMode.edge_rising, hy, me, some t1, true, ct⟩, false) := by
      rw [tickScent_eval _ _ _ _ (Or.inr ⟨t1, rfl, by
        show (0 : ℝ) ≤ t - t1
        have := hts t (by simp)
        linarith⟩)]
      rw [tickScentEval_eq P hist t
        ⟨i, ep, cond, 0, ap, TriggerMode.edge_rising, hy, me, some t1, true, ct⟩
        true false (hmet t (by simp)) rfl]
      rfl
    have hstep : evaluateScents
        ({ pheromones := P
           scents := [⟨i, ep, cond, 0, ap, TriggerMode.edge_rising, hy, me, some t1, true, ct⟩]
           emissionHistory := hist } : BlackboardState) t =
        ({ pheromones := P
           scents := [⟨i, ep, cond, 0, ap, TriggerMode.edge_rising, hy, me, some t1, true, ct⟩]
           emissionHistory := hist }, []) := by
      rw [evaluateScents_singleton, htick]
      rfl
    rw [List.foldl_cons, hstep]
    exact ih (fun u hu => hts u (by simp [hu])) (fun u hu => hmet u (by simp [hu])) n

/-- The firing decision in `level` mode. -/
theorem shouldTrigger_level (sc : Scent) (met : Bool) (h : sc.trigger_mode = TriggerMode.level) :
    shouldTrigger sc met = met := by
  unfold shouldTrigger
  rw [h]

/-- The firing decision in `edge_rising` mode. -/
theorem shouldTrigger_rising (sc : Scent) (met : Bool)
    (h : sc.trigger_mode = TriggerMode.edge_rising) :
    shouldTrigger sc met = (met && !sc.last_condition_met) := by
  unfold shouldTrigger
  rw [h]

/-- The firing decision in `edge_falling` mode. -/
theorem shouldTrigger_falling (sc : Scent) (met : Bool)
    (h : sc.trigger_mode = TriggerMode.edge_falling) :
    shouldTrigger sc met = (!met && sc.last_condition_met) := by
  unfold shouldTrigger
  rw [h]

/-- C4: a scent inside its cooldown window (positive `last_triggered_at`,
`now - last_triggered_at < cooldown_ms`) is skipped untouched and never
fires; otherwise its condition is evaluated, `last_condition_met` is set
to the new value, the firing decision follows the trigger mode against
the previous `last_condition_met`, and firing stamps
`last_triggered_at := now`; consequently an `edge_rising` scent with zero
cooldown over a condition that stays true fires exactly once. -/
theorem evaluation_loop_semantics :
    (∀ (P : List Pheromone) (hist : List Emission) (now : ℝ) (sc : Scent) (t : ℝ),
        sc.last_triggered_at = some t → 0 < t → now - t < sc.cooldown_ms →
        tickScent P hist now sc = (sc, false)) ∧
      (∀ (P : List Pheromone) (hist : List Emission) (now : ℝ) (sc : Scent),
        (sc.last_triggered_at = Option.none ∨
          ∃ t, sc.last_triggered_at = some t ∧ sc.cooldown_ms ≤ now - t) →
        tickScent P hist now sc = tickScentEval P hist now sc ∧
        (tickScent P hist now sc).1.last_condition_met =
          (evaluateCondition sc.condition
            { pheromones := P, now := now, emissionHistory := hist }).met ∧
        (tickScent P hist now sc).2 =
          shouldTrigger sc (evaluateCondition sc.condition
            { pheromones := P, now := now, emissionHistory := hist }).met ∧
        (tickScent P hist now sc).1.last_triggered_at =
          (if (tickScent P hist now sc).2 then some now else sc.last_triggered_at)) ∧
      (∀ (sc : Scent) (met : Bool),
        (sc.trigger_mode = TriggerMode.level → (shouldTrigger sc met = true ↔ met = true)) ∧
        (sc.trigger_mode = TriggerMode.edge_rising →
          (shouldTrigger sc met = true ↔ met = true ∧ sc.last_condition_met = false)) ∧
        (sc.trigger_mode = TriggerMode.edge_falling →
          (shouldTrigger sc met = true ↔ met = false ∧ sc.last_condition_met = true))) ∧
      (∀ (i ep : String) (cond : ScentCondition) (ap : ℕ) (hy me : ℝ)
        (ct : Option (List String)) (P : List Pheromone) (hist : List Emission)
        (t0 : ℝ) (rest : List ℝ),
        0 < t0 → (∀ t ∈ rest, t0 ≤ t) →
        (∀ t ∈ t0 :: rest,
          (evaluateCondition cond { pheromones := P, now := t, emissionHistory := hist }).met = true) →
        (evalLoop
            { pheromones := P
              scents := [⟨i, ep, cond, 0, ap, TriggerMode.edge_rising, hy, me, Option.none, false, ct⟩]
              emissionHistory := hist }
            (t0 :: rest)).2 = 1) := by
  refine ⟨tickScent_skip, ?_, ?_, ?_⟩
  · intro P hist now sc h
    have he := tickScent_eval P hist now sc h
    rw [he]
    exact ⟨rfl, rfl, rfl, rfl⟩
  · intro sc met
    refine ⟨fun h => ?_, fun h => ?_, fun h => ?_⟩
    · rw [shouldTrigger_level sc met h]
    · rw [shouldTrigger_rising sc met h]
      cases met <;> cases sc.last_condition_met <;> simp
    · rw [shouldTrigger_falling sc met h]
      cases met <;> cases sc.last_condition_met <;> simp
  · intro i ep cond ap hy me ct P hist t0 rest ht0 hrest hmet
    have htick0 : tickScent P hist t0
        ⟨i, ep, cond, 0, ap, TriggerMode.edge_rising, hy, me, Option.none, false, ct⟩ =
        (⟨i, ep, cond, 0, ap, TriggerMode.edge_rising, hy, me, some t0, true, ct⟩, true) := by
      rw [tickScent_eval _ _ _ _ (Or.inl rfl)]
      rw [tickScentEval_eq P hist t0
        ⟨i, ep, cond, 0, ap, TriggerMode.edge_rising, hy, me, Option.none, false, ct⟩
        true true (hmet t0 (by simp)) rfl]
      rfl
    have hstep0 : evaluateScents
        ({ pheromones := P
           scents := [⟨i, ep, cond, 0, ap, TriggerMode.edge_rising, hy, me, Option.none, false, ct⟩]
           emissionHistory := hist } : BlackboardState) t0 =
        ({ pheromones := P
           scents := [⟨i, ep, cond, 0, ap, TriggerMode.edge_rising, hy, me, some t0, true, ct⟩]
           emissionHistory := hist }, [i]) := by
      rw [evaluateScents_singleton, htick0]
      rfl
    show (List.foldl
      (fun acc now =>
        let r := evaluateScents acc.1 now
        (r.1, acc.2 + r.2.length))
      ({ pheromones := P
         scents := [⟨i, ep, cond, 0, ap, TriggerMode.edge_rising, hy, me, Option.none, false, ct⟩]
         emissionHistory := hist }, 0) (t0 :: rest)).2 = 1
    rw [List.foldl_cons, hstep0]
    exact congrArg Prod.snd (evalLoop_edge_rising_stable P hist i ep cond ap hy me ct t0 rest
      hrest (fun u hu => hmet u (by simp [hu])) 1)

/-- A threshold condition that is met in every environment: the count of
matching pheromones is always at least zero. -/
noncomputable def condC4w : ThresholdCondition :=
  { trail := "a"
    signal_type := "*"
    aggregation := Aggregation.count
    operator := CmpOp.ge
    value := 0 }

/-- A level scent 5 ms after its last trigger, with a 10 ms cooldown. -/
noncomputable def scentC4skip : Scent :=
  ⟨"s", "", ScentCondition.threshold condC4w, 10, 0, TriggerMode.level, 0, 30000, some 5, false,
    Option.none⟩

/-- C4 witness: the evaluation loop theorem applied concretely; the scent
in cooldown is skipped untouched at `now = 6`, and an `edge_rising` scent
with zero cooldown over the constantly met condition fires exactly once
over the ticks `[1, 2]`. -/
theorem evaluation_loop_semantics_witness :
    tickScent [] [] 6 scentC4skip = (scentC4skip, false) ∧
      (evalLoop
          { pheromones := []
            scents := [⟨"e", "", ScentCondition.threshold condC4w, 0, 0, TriggerMode.edge_rising,
              0, 30000, Option.none, false, Option.none⟩]
            emissionHistory := [] } [1, 2]).2 = 1 := by
  have hmetW : ∀ t : ℝ,
      (evaluateCondition (ScentCondition.threshold condC4w)
        { pheromones := [], now := t, emissionHistory := [] }).met = true := by
    intro t
    simp only [evaluateCondition, evaluateThreshold, condC4w, List.filter_nil, List.map_nil,
      List.length_nil, Nat.cast_zero, compare]
    rw [decide_eq_true_eq]
  constructor
  · exact evaluation_loop_semantics.1 [] [] 6 scentC4skip 5 rfl (by norm_num)
      (show (6 : ℝ) - 5 < scentC4skip.cooldown_ms from by
        show (6 : ℝ) - 5 < 10
        norm_num)
  · exact evaluation_loop_semantics.2.2.2 "e" "" (ScentCondition.threshold condC4w) 0 0 30000
      Option.none [] [] 1 [2] (by norm_num)
      (by
        intro u hu
        rw [List.mem_singleton] at hu
        subst hu
        norm_num)
      (fun u _ => hmetW u)

end SBP
